import Mathlib

/-!
Verification of the Interactive-JSAT network analytics engine
(`src/Code/app.py`, `src/Code/utils.py`, `src/Code/metric_visualizations.py`,
`src/Code/config.py`).

The Python code is shallowly embedded: the graph is an association list of
node attributes plus an edge list (mirroring a networkx `DiGraph`), metric
and highlight functions are translated branch by branch, and the expensive
library calls (`nx.simple_cycles`, `nx.community.greedy_modularity_communities`)
are treated as oracles whose output sequence is passed in explicitly, since
every claim under study concerns what the engine does with the enumerated
sequence rather than the enumeration algorithm itself.

Python string operations used by the persistence codec are modelled over
`List Char`; Python `dict` objects are modelled as insertion-ordered
association lists with update-in-place semantics.

The advisory `pos` node attribute (pixel position) is omitted from the node
record: the export codec never reads it, the import codec synthesizes it
fresh, and no claim observes it.
-/

namespace JSAT

/-! ## String helpers (models of the Python string operations) -/

/-- Model of Python `c.lower()` on a single character (ASCII data only). -/
def charLower (c : Char) : Char := c.toLower

/-- Model of Python `s.lower()`. -/
def lowerStr (s : String) : String := String.mk (s.data.map charLower)

/-- Model of Python `s.replace(" ", "")`: drop every space character. -/
def stripSpaces (s : String) : String :=
  String.mk (s.data.filter (fun c => c.toNat ≠ 32))

/-- List version of the test whether `pat` occurs at the head of `l`. -/
def startsWithL : List Char → List Char → Bool
  | [], _ => true
  | _ :: _, [] => false
  | p :: ps, c :: cs => p = c && startsWithL ps cs

/-- Model of Python `s.endswith(suffix)`: suffix test on the character list. -/
def endsWithL (s suffix : String) : Bool :=
  startsWithL suffix.data.reverse s.data.reverse

/-- Worker for `removeOcc` with a fuel argument so the recursion is
structural (every step strictly shrinks the list, so fuel equal to the
list length never runs out). -/
def removeOccFuel (pat : List Char) : Nat → List Char → List Char
  | 0, l => l
  | _ + 1, [] => []
  | fuel + 1, c :: rest =>
    if pat ≠ [] ∧ startsWithL pat (c :: rest) then
      removeOccFuel pat fuel (rest.drop (pat.length - 1))
    else
      c :: removeOccFuel pat fuel rest

/-- Remove every (leftmost, non-overlapping) occurrence of the non-empty
pattern `pat` from `l`; this is Python `s.replace(pat, "")` restricted to the
character-list view. -/
def removeOcc (pat l : List Char) : List Char := removeOccFuel pat l.length l

/-- Model of Python `s.replace(pat, "")`. -/
def removeSub (s pat : String) : String := String.mk (removeOcc pat.data s.data)

/-- Left-pad a digit string with zeros up to width `w`
(used by the fixed-point formatters). -/
def padZeros (s : String) (w : Nat) : String :=
  String.mk (List.replicate (w - s.data.length) '0') ++ s

/-- Model of the Python format `f"{num/den:.d}f"` for non-negative integers
`num`, `den` with `den ≠ 0`: the rational `num/den` rounded to `d` decimal
places, ties to even (matching IEEE rounding of exactly representable
values; every concrete instance evaluated in this file is exact). -/
def formatFixed (d : Nat) (num den : Nat) : String :=
  let scaled := num * 10 ^ d
  let q := scaled / den
  let r := scaled % den
  let q := if 2 * r > den ∨ (2 * r = den ∧ q % 2 = 1) then q + 1 else q
  toString (q / 10 ^ d) ++ "." ++ padZeros (toString (q % 10 ^ d)) d

/-! ## config.py -/

/-- config.py: HISTORY_LIMIT. -/
def HISTORY_LIMIT : Nat := 40

/-- config.py: EDGE_TYPE_HARD. -/
def EDGE_TYPE_HARD : String := "hard"

/-- config.py: EDGE_TYPE_SOFT. -/
def EDGE_TYPE_SOFT : String := "soft"

/-- config.py: LAYER_ORDER. -/
def LAYER_ORDER : List String :=
  ["Synchrony", "Coordination Grounding", "Distributed Work", "Base Environment"]

/-! ## Graph model

A networkx `DiGraph` as the app uses it: nodes are integer ids carrying a
label, a type ("Function"/"Resource"), a layer name and an agent list;
edges are directed `(u, v)` pairs carrying a type string ("hard"/"soft").
Legacy single-string agent attributes are represented as singleton lists
(the code normalizes them with `if not isinstance(ag, list): ag = [ag]`
wherever it reads them; the one place the raw value is compared unwrapped
is noted at the Interdependence metric). -/

/-- Attributes of one node. -/
structure NodeData where
  label : String
  type : String
  layer : String
  agent : List String
  deriving DecidableEq, Repr

/-- The directed graph: association list of nodes keyed by integer id,
plus an edge list of (source id, target id, edge type). -/
structure Graph where
  nodes : List (Nat × NodeData)
  edges : List (Nat × Nat × String)
  deriving DecidableEq, Repr

/-- Look up the attribute record of node `u` (Python `G.nodes[u]`). -/
def getNode (G : Graph) (u : Nat) : Option NodeData :=
  (G.nodes.find? (fun p => p.1 = u)).map (fun p => p.2)

/-- Python `G.nodes[u].get('agent', ...)` under the singleton-list
normalization; a missing node yields the default `["Unassigned"]`. -/
def agentAttr (G : Graph) (u : Nat) : List String :=
  ((getNode G u).map (fun d => d.agent)).getD ["Unassigned"]

/-- Python `G.nodes[u].get('type')` (an absent node gives `none`,
matching the `None` the dictionary lookup would produce). -/
def typeAttr (G : Graph) (u : Nat) : Option String :=
  (getNode G u).map (fun d => d.type)

/-- Python `G.nodes[u].get('label', f"Node_{u}")`. -/
def labelAttr (G : Graph) (u : Nat) : String :=
  ((getNode G u).map (fun d => d.label)).getD ("Node_" ++ toString u)

/-- Python `G.has_edge(u, v)`. -/
def has_edge (G : Graph) (u v : Nat) : Bool :=
  G.edges.any (fun e => e.1 = u ∧ e.2.1 = v)

/-- networkx `G.add_edge(u, v, type=t)`: replaces the attributes when the
edge already exists, otherwise appends it.  (networkx would also create
missing endpoint nodes; both call sites in the app only pass ids of
existing nodes, so that branch is not modelled.) -/
def add_edge (G : Graph) (u v : Nat) (t : String) : Graph :=
  if has_edge G u v then
    { G with edges := G.edges.map (fun e => if e.1 = u ∧ e.2.1 = v then (u, v, t) else e) }
  else
    { G with edges := G.edges ++ [(u, v, t)] }

/-! ## utils.py: calculate_metric

The branches below follow the source order.  `nx.simple_cycles(G)` is an
incremental enumeration (Johnson's algorithm); its yielded sequence is the
explicit `cycles` argument.  The purely float-valued metrics the claims
never observe on a non-empty graph (Density, Avg Degree, Avg Cycle Length,
Cyclomatic Number, Critical Loop Nodes, Global Efficiency, Modularity,
Supportive Gain, Critical Vulnerability, Functional Redundancy, Agent
Criticality) are not reproduced branch-for-branch; on a non-empty graph the
model returns the fall-through value for them.  Every branch a claim
mentions (`Nodes`, `Edges`, the empty-graph guard, `Interdependence`,
`Total Cycles`, `Brittleness Ratio`, `Collaboration Ratio`) is translated
exactly. -/

/-- Loop body of the `Total Cycles` branch:
`count += 1; if count > 100: return "100+"` over the yielded cycles,
falling out to `str(count)`. -/
def totalCyclesGo : Nat → List (List Nat) → String
  | count, [] => toString count
  | count, _ :: rest =>
    if count + 1 > 100 then "100+" else totalCyclesGo (count + 1) rest

/-- Loop of the `Interdependence` branch: count edges whose two endpoint
`agent` attributes differ (Python compares the raw attribute values with
`!=`; under the list normalization that is list inequality). -/
def interdependenceCross (G : Graph) : Nat :=
  G.edges.foldl
    (fun acc e => if agentAttr G e.1 ≠ agentAttr G e.2.1 then acc + 1 else acc) 0

/-- The real (non-Unassigned) agents of a node record. -/
def realAgents (d : NodeData) : List String :=
  d.agent.filter (fun a => a ≠ "Unassigned")

/-- utils.py `calculate_metric`. -/
def calculate_metric (G : Graph) (cycles : List (List Nat)) (metric_name : String) : String :=
  let n := G.nodes.length
  if metric_name = "Nodes" then toString n
  else if metric_name = "Edges" then toString G.edges.length
  else if n = 0 then "0"
  else if metric_name = "Interdependence" then
    let m := G.edges.length
    if m = 0 then "0.000"
    else formatFixed 3 (interdependenceCross G) m
  else if metric_name = "Total Cycles" then
    totalCyclesGo 0 cycles
  else if metric_name = "Brittleness Ratio" then
    let soft := G.edges.countP (fun e => e.2.2 = EDGE_TYPE_SOFT)
    let hard := G.edges.countP (fun e => e.2.2 = EDGE_TYPE_HARD)
    if hard = 0 then "Infinite (No Hard Edges)"
    else formatFixed 2 soft hard ++ " (S:" ++ toString soft ++ "/H:" ++ toString hard ++ ")"
  else if metric_name = "Collaboration Ratio" then
    let total := G.nodes.countP
      (fun p => p.2.type = "Function" ∧ (realAgents p.2).length > 0)
    let shared := G.nodes.countP
      (fun p => p.2.type = "Function" ∧ (realAgents p.2).length > 1)
    if total = 0 then "0.0%"
    else formatFixed 1 (shared * 100) total ++ "%"
  else ""

/-! ## metric_visualizations.py -/

/-- One highlight group: node list, edge list, color, stroke width. -/
structure Highlight where
  nodes : List Nat
  edges : List (Nat × Nat)
  color : String
  width : Nat
  deriving DecidableEq, Repr

/-- Placeholder group used as the default of positional lookups in
statements (never produced by the engine). -/
def emptyHighlight : Highlight := ⟨[], [], "", 0⟩

/-- Palette of `get_cycle_highlights`. -/
def neon_colors_all : List String :=
  ["#FF1493", "#00FF00", "#00FFFF", "#FFD700",
   "#FF4500", "#9400D3", "#32CD32", "#1E90FF"]

/-- Palette of `get_single_cycle_highlight` (the comment in the source says
Same as get_cycle_highlights, but the entries at offsets 1, 2 and 7
differ). -/
def neon_colors_single : List String :=
  ["#FF1493", "#00C000", "#DE52D0", "#FFD700",
   "#FF4500", "#9400D3", "#32CD32", "#060C12"]

/-- Edge list of one cycle: `(path[j], path[(j+1) % len(path)])` for each
`j`, closing the cycle back to its first node. -/
def cycle_edges (path : List Nat) : List (Nat × Nat) :=
  (List.range path.length).map
    (fun j => (path.getD j 0, path.getD ((j + 1) % path.length) 0))

/-- metric_visualizations.py `get_cycle_highlights`, as a function of the
full list `cycles = list(nx.simple_cycles(G))` (the source materializes the
whole enumeration with no cap). -/
def get_cycle_highlights (cycles : List (List Nat)) : List Highlight :=
  cycles.enum.map (fun ip =>
    { nodes := ip.2
      edges := cycle_edges ip.2
      color := neon_colors_all.getD (ip.1 % neon_colors_all.length) ""
      width := 8 })

/-- metric_visualizations.py `get_single_cycle_highlight` (the negative
index guard disappears under the `Nat` index type). -/
def get_single_cycle_highlight (cycles : List (List Nat)) (cycle_index : Nat) : List Highlight :=
  if cycle_index ≥ cycles.length then []
  else
    let path := cycles.getD cycle_index []
    [{ nodes := path
       edges := cycle_edges path
       color := neon_colors_single.getD (cycle_index % neon_colors_single.length) ""
       width := 10 }]

/-- metric_visualizations.py `get_interdependence_highlights`.  The
`involved_nodes` accumulator is a Python `set` with unspecified iteration
order; it is modelled as the deduplicated list of endpoint ids. -/
def get_interdependence_highlights (G : Graph) : List Highlight :=
  let cross := (G.edges.filter (fun e => agentAttr G e.1 ≠ agentAttr G e.2.1)).map
    (fun e => (e.1, e.2.1))
  if cross = [] then []
  else
    [{ nodes := (cross.flatMap (fun e => [e.1, e.2])).dedup
       edges := cross
       color := "#FF0000"
       width := 8 }]

/-- Palette shared by both community-highlight functions. -/
def community_colors : List String :=
  ["#FF6B6B", "#4ECDC4", "#45B7D1", "#FFA07A",
   "#98D8C8", "#F7DC6F", "#BB8FCE", "#B2BABB"]

/-- The double loop `for u in nodes_list: for v in nodes_list:
if G.has_edge(u, v)` collecting intra-community edges. -/
def intra_edges (G : Graph) (nodes_list : List Nat) : List (Nat × Nat) :=
  nodes_list.flatMap (fun u =>
    (nodes_list.filter (fun v => has_edge G u v)).map (fun v => (u, v)))

/-- metric_visualizations.py `get_modularity_highlights`, as a function of
`communities = nx.community.greedy_modularity_communities(G.to_undirected())`
(an oracle here; networkx documents its result as sorted largest community
first). -/
def get_modularity_highlights (G : Graph) (communities : List (List Nat)) : List Highlight :=
  communities.enum.map (fun ic =>
    { nodes := ic.2
      edges := intra_edges G ic.2
      color := community_colors.getD (ic.1 % community_colors.length) ""
      width := 10 })

/-- Python `communities.sort(key=len, reverse=True)`: a stable sort into
non-increasing length, modelled by the stable `List.insertionSort`. -/
def sortBySizeDesc (communities : List (List Nat)) : List (List Nat) :=
  communities.insertionSort (fun a b => b.length ≤ a.length)

/-- metric_visualizations.py `get_single_modularity_highlight` (negative
index guard disappears under the `Nat` index type). -/
def get_single_modularity_highlight (G : Graph) (communities : List (List Nat))
    (group_index : Nat) : List Highlight :=
  let cs := sortBySizeDesc communities
  if group_index ≥ cs.length then []
  else
    let target_group := cs.getD group_index []
    [{ nodes := target_group
       edges := intra_edges G target_group
       color := community_colors.getD (group_index % community_colors.length) ""
       width := 10 }]

/-! ## app.py: history (save_state / undo / redo)

The two snapshot stacks are lists with the top at the head (Python appends
and pops at the tail; `pop(0)` on overflow discards the oldest entry, which
is the last element here).

A snapshot is `self.G.copy()`.  networkx `copy()` is an *independent
shallow* copy: it rebuilds the graph structure and copies each attribute
dict, but an attribute value that is a container is **shared** between the
graph and the copy.  The only container attribute the app stores is the
agent list, so a snapshot and the live graph point at the same agent-list
object.  The model therefore puts the agent lists behind references into a
shared container store: a graph value (`GraphRef`) holds, per node, a
reference to its agent list; `G.copy()` is then the plain `GraphRef` value
(structure copied, references shared), and the store is global to the
application state.  In-place writes to an agent list (`ag[idx] = new`,
`ag.remove`, `ag.append`) are store updates visible through every snapshot
holding the reference. -/

/-- Attributes of one node in the history model: as `NodeData`, with the
agent list held by reference into the shared container store. -/
structure NodeDataRef where
  label : String
  type : String
  layer : String
  agentRef : Nat
  deriving DecidableEq, Repr

/-- Graph structure for the history model. -/
structure GraphRef where
  nodes : List (Nat × NodeDataRef)
  edges : List (Nat × Nat × String)
  deriving DecidableEq, Repr

/-- The shared store of agent-list containers, addressed by reference. -/
abbrev AgentStore := List (Nat × List String)

/-- Read the container behind a reference. -/
def storeGet (st : AgentStore) (r : Nat) : List String :=
  ((st.find? (fun p => p.1 = r)).map (fun p => p.2)).getD []

/-- Overwrite the container behind a reference in place: every holder of
the reference — the live graph and every snapshot — sees the new
contents. -/
def storeSet (st : AgentStore) (r : Nat) (v : List String) : AgentStore :=
  st.map (fun p => if p.1 = r then (r, v) else p)

/-- Mutable application state relevant to history handling: the current
graph, the two snapshot stacks and the shared container store. -/
structure AppState where
  g : GraphRef
  undo_stack : List GraphRef
  redo_stack : List GraphRef
  store : AgentStore
  deriving DecidableEq, Repr

/-- app.py `save_state` (with the default `state=None` argument: snapshot
the current graph): push the `G.copy()` value — graph structure copied,
agent containers shared, so no store change — evict the oldest entry past
`HISTORY_LIMIT`, clear the redo stack. -/
def save_state (s : AppState) : AppState :=
  let us := s.g :: s.undo_stack
  { s with
    undo_stack := if us.length > HISTORY_LIMIT then us.dropLast else us
    redo_stack := [] }

/-- app.py `undo`: restores the snapshot graph value; the container store
is untouched (nothing in the code copies the agent lists back). -/
def undo (s : AppState) : AppState :=
  match s.undo_stack with
  | [] => s
  | t :: rest => { s with g := t, undo_stack := rest, redo_stack := s.g :: s.redo_stack }

/-- app.py `redo`. -/
def redo (s : AppState) : AppState :=
  match s.redo_stack with
  | [] => s
  | t :: rest => { s with g := t, undo_stack := s.g :: s.undo_stack, redo_stack := rest }

/-- Python `ag[ag.index(old)] = new`: replace the first occurrence. -/
def replaceFirst : List String → String → String → List String
  | [], _, _ => []
  | x :: rest, old, new =>
    if x = old then new :: rest else x :: replaceFirst rest old new

/-- The node loop of the edit_agent save handler: for every node whose
(list-valued) agent attribute contains the old name, the list is mutated
in place through its reference (`idx = ag.index(agent_name);
ag[idx] = new_name`) — a write every snapshot sharing the container
observes.  The legacy single-string branch rebinds the attribute instead
of writing a container and is outside the normalized list representation;
the color-registry update (`del agents[old]; agents[new] = color`) does
not touch the graph and is not modelled. -/
def rename_agent_nodes (st : AgentStore) (g : GraphRef) (old new : String) : AgentStore :=
  g.nodes.foldl (fun st p =>
    if old ∈ storeGet st p.2.agentRef then
      storeSet st p.2.agentRef (replaceFirst (storeGet st p.2.agentRef) old new)
    else st) st

/-- app.py edit_agent save handler, as the HistoryManager sees it: one
`save_state()` snapshot, then the in-place rename across the node agent
lists. -/
def edit_agent_save (s : AppState) (old new : String) : AppState :=
  let s1 := save_state s
  { s1 with store := rename_agent_nodes s1.store s1.g old new }

/-- The agent set of node `u` as every reader of the graph obtains it:
the container behind the node's reference. -/
def agentSetOf (s : AppState) (u : Nat) : List String :=
  storeGet s.store
    (((s.g.nodes.find? (fun p => p.1 = u)).map (fun p => p.2.agentRef)).getD 0)

/-! ## app.py: assign_agent_logic -/

/-- app.py `assign_agent_logic`, acting on the (list-normalized) agent
attribute of one node: drop the `Unassigned` placeholder when a real agent
is toggled, then remove the agent if present (reverting to the placeholder
when the list empties) or append it if absent. -/
def assign_agent_logic (current : List String) (agent_name : String) : List String :=
  let current1 :=
    if "Unassigned" ∈ current ∧ agent_name ≠ "Unassigned" then
      current.erase "Unassigned"
    else current
  if agent_name ∈ current1 then
    let r := current1.erase agent_name
    if r = [] then ["Unassigned"] else r
  else
    current1 ++ [agent_name]

/-! ## app.py: _handle_add_edge (the validated interactive path) -/

/-- app.py `_handle_add_edge`, at the point where a start node is already
selected and a different node is clicked: compare the two `type`
attributes, report the connection error and leave the graph untouched on a
match, otherwise create the edge with the chosen hard/soft type.  The
result pairs the new graph with the error message shown, if any. -/
def handle_add_edge (G : Graph) (selected clicked : Nat) (is_hard : Bool) :
    Graph × Option String :=
  if selected = clicked then (G, none)
  else if typeAttr G selected = typeAttr G clicked then
    (G, some "TypeMismatch")
  else
    (add_edge G selected clicked (if is_hard then EDGE_TYPE_HARD else EDGE_TYPE_SOFT), none)

/-! ## app.py: persistence codec (initiate_save_json / load_from_json)

The JSON document is modelled structurally: the Nodes object is an
insertion-ordered association list (Python dict semantics: an update keeps
the position of an existing key), Edges is a list, Agents maps an agent
name to its Authority label list.  File handling, the JSON text layer and
the surrounding dialogs are outside the model; the codec itself is
translated statement by statement.  The agent color registry
(`self.agents`) only contributes the ordered list of its keys to the
codec, which is the `agents` argument below. -/

/-- Value stored under one label inside the `Nodes` JSON object:
the `Type` string (layer with spaces stripped, then the node type) and the
`UserData` string. -/
structure JsonNodeEntry where
  typeCode : String
  userData : String
  deriving DecidableEq, Repr

/-- One element of the `Edges` JSON array: source label, target label and
the edge type held under `UserData.type`. -/
structure JsonEdgeEntry where
  source : String
  target : String
  edgeType : String
  deriving DecidableEq, Repr

/-- The `GraphData` document. -/
structure JsonDoc where
  nodesD : List (String × JsonNodeEntry)
  edgesD : List JsonEdgeEntry
  agentsD : List (String × List String)
  deriving DecidableEq, Repr

/-- Python `d[k] = v` on an insertion-ordered dict: replace in place when
the key exists, append otherwise. -/
def dictInsert {β : Type} (d : List (String × β)) (k : String) (v : β) : List (String × β) :=
  if d.any (fun p => p.1 = k) then d.map (fun p => if p.1 = k then (k, v) else p)
  else d ++ [(k, v)]

/-- Python `d.get(k)` on the association-list dict. -/
def dictFind {β : Type} (d : List (String × β)) (k : String) : Option β :=
  (d.find? (fun p => p.1 = k)).map (fun p => p.2)

/-- Python `d.setdefault(k, []).append(v)`. -/
def assocAppend (m : List (String × List String)) (k v : String) : List (String × List String) :=
  if m.any (fun p => p.1 = k) then
    m.map (fun p => if p.1 = k then (p.1, p.2 ++ [v]) else p)
  else m ++ [(k, [v])]

/-- The `Type` string written for a node:
`f"{layer.replace(' ', '')}{typ}"` (the source reads both attributes with
defaults "Base Environment" / "Function"; the model holds them as total
fields). -/
def encodeTypeCode (d : NodeData) : String := stripSpaces d.layer ++ d.type

/-- The `Nodes` object built by `initiate_save_json`:
`nodes_dict[lbl] = {"Type": ..., "UserData": lbl}` over the nodes in
order.  A repeated label overwrites the earlier entry. -/
def exportNodesDict (G : Graph) : List (String × JsonNodeEntry) :=
  G.nodes.foldl
    (fun acc p => dictInsert acc p.2.label ⟨encodeTypeCode p.2, p.2.label⟩) []

/-- The `Agents` object: for each registered agent name (in registry
order), the labels of the nodes whose agent list carries it, in node
order, one occurrence per matching list entry — exactly what the
`agent_authorities[ag].append(lbl)` loop accumulates.  An agent name on a
node that is not in the registry is dropped (`if ag in agent_authorities`). -/
def exportAuthorities (G : Graph) (agents : List String) : List (String × List String) :=
  agents.map (fun a =>
    (a, G.nodes.flatMap (fun p =>
      (p.2.agent.filter (fun x => x = a)).map (fun _ => p.2.label))))

/-- app.py `initiate_save_json` (the document construction). -/
def exportDoc (G : Graph) (agents : List String) : JsonDoc :=
  { nodesD := exportNodesDict G
    edgesD := G.edges.map (fun e => ⟨labelAttr G e.1, labelAttr G e.2.1, e.2.2⟩)
    agentsD := exportAuthorities G agents }

/-- app.py `_parse_node_attributes`: split the `Type` string into
(node type, layer).  Python `combined.replace("Function", "")` removes all
occurrences, and the normalized remainder is matched against the
normalized `LAYER_ORDER` names, defaulting to Base Environment /
Resource. -/
def parse_node_attributes (combined : String) : String × String :=
  let tp :=
    if endsWithL combined "Function" then ("Function", removeSub combined "Function")
    else if endsWithL combined "Resource" then ("Resource", removeSub combined "Resource")
    else ("Resource", combined)
  let norm := stripSpaces (lowerStr tp.2)
  let layer :=
    (LAYER_ORDER.find? (fun known => stripSpaces (lowerStr known) = norm)).getD
      "Base Environment"
  (tp.1, layer)

/-- The `label_to_agents` map of `load_from_json`: invert every Authority
list of the Agents object. -/
def buildLabelToAgents (agentsD : List (String × List String)) : List (String × List String) :=
  agentsD.foldl (fun m p => p.2.foldl (fun m lbl => assocAppend m lbl p.1) m) []

/-- The node-loading loop of `load_from_json`: node ids are the
enumeration indices; label is `props.get("UserData", lbl)` (total here,
export always writes it); type and layer come from
`_parse_node_attributes`; the agent list is `label_to_agents.get(lbl,
["Unassigned"])`. -/
def importNodes (doc : JsonDoc) : List (Nat × NodeData) :=
  doc.nodesD.enum.map (fun ip =>
    let tl := parse_node_attributes ip.2.2.typeCode
    (ip.1,
     { label := ip.2.2.userData
       type := tl.1
       layer := tl.2
       agent := (dictFind (buildLabelToAgents doc.agentsD) ip.2.1).getD ["Unassigned"] }))

/-- The `label_to_id` map of `load_from_json` (a later duplicate label
overwrites the earlier binding, like the Python dict assignment). -/
def buildLabelToId (nodesD : List (String × JsonNodeEntry)) : List (String × Nat) :=
  nodesD.enum.foldl (fun m ip => dictInsert m ip.2.1 ip.1) []

/-- The edge-loading loop of `load_from_json`: resolve both labels and add
the edge, silently skipping entries with an unresolved label. -/
def importEdges (edgesD : List JsonEdgeEntry) (l2i : List (String × Nat)) (G : Graph) : Graph :=
  edgesD.foldl (fun g e =>
    match dictFind l2i e.source, dictFind l2i e.target with
    | some u, some v => add_edge g u v e.edgeType
    | _, _ => g) G

/-- app.py `load_from_json` (the graph reconstruction: clear the graph,
load nodes, then edges).  The agent color registry update is not part of
the graph and is not modelled. -/
def importDoc (doc : JsonDoc) : Graph :=
  importEdges doc.edgesD (buildLabelToId doc.nodesD)
    { nodes := importNodes doc, edges := [] }

/-- The node record the import path reconstructs for an exported node
record `nd` (used to state the round-trip lemmas). -/
def importedNode (G : Graph) (agents : List String) (nd : NodeData) : NodeData :=
  { label := nd.label
    type := nd.type
    layer := nd.layer
    agent := (dictFind (buildLabelToAgents (exportAuthorities G agents))
        nd.label).getD ["Unassigned"] }

/-- Spec-side counting of cross-boundary edges, following the claim
wording for the Interdependence metric: an edge counts only when the two
endpoint agent sets are disjoint.  Stated for comparison with the source
implementation, which compares the attribute values for inequality. -/
def disjointCrossCount (G : Graph) : Nat :=
  G.edges.countP (fun e => (agentAttr G e.1).all (fun a => a ∉ agentAttr G e.2.1))

/-- The data-model invariants of a graph the app manipulates, relative to
the ordered agent registry keys: unique node ids, node types and layers
drawn from their enumerations, non-empty agent lists referencing only
registered agents, edge endpoints present, and no parallel edges (a
networkx `DiGraph` stores one edge per ordered pair).  The first
component, unique labels, is not an invariant the code maintains — it is
the extra hypothesis under which the serialization round-trip holds. -/
def ValidGraph (G : Graph) (agents : List String) : Prop :=
  (G.nodes.map (fun p => p.2.label)).Nodup ∧
  (G.nodes.map (fun p => p.1)).Nodup ∧
  (∀ p ∈ G.nodes, p.2.type = "Function" ∨ p.2.type = "Resource") ∧
  (∀ p ∈ G.nodes, p.2.layer ∈ LAYER_ORDER) ∧
  (∀ p ∈ G.nodes, p.2.agent ≠ [] ∧ ∀ a ∈ p.2.agent, a ∈ agents) ∧
  (∀ e ∈ G.edges, (∃ p ∈ G.nodes, p.1 = e.1) ∧ (∃ p ∈ G.nodes, p.1 = e.2.1)) ∧
  (G.edges.map (fun e => (e.1, e.2.1))).Nodup

instance (G : Graph) (agents : List String) : Decidable (ValidGraph G agents) := by
  unfold ValidGraph; infer_instance

/-! ## Helper lemmas -/

/-- The Total Cycles loop in closed form: the exact count is reported up to
and including 100 enumerated cycles, and `100+` beyond. -/
theorem totalCyclesGo_spec (cycles : List (List Nat)) :
    ∀ count : Nat, count ≤ 100 → totalCyclesGo count cycles =
      if count + cycles.length ≤ 100 then toString (count + cycles.length) else "100+" := by
  induction cycles with
  | nil => intro count hc; simp [totalCyclesGo, hc]
  | cons c rest ih =>
    intro count hc
    rw [totalCyclesGo]
    rcases Nat.lt_or_ge 100 (count + 1) with h | h
    · rw [if_pos (by omega), if_neg (by simp only [List.length_cons]; omega)]
    · rw [if_neg (by omega), ih (count + 1) (by omega)]
      have harith : count + (c :: rest).length = count + 1 + rest.length := by
        simp only [List.length_cons]; omega
      rw [harith]

/-- The amount of the enumeration the Total Cycles loop can consume: its
result is determined by the first 101 yielded cycles. -/
theorem totalCyclesGo_take (cycles : List (List Nat)) :
    totalCyclesGo 0 cycles = totalCyclesGo 0 (cycles.take 101) := by
  rw [totalCyclesGo_spec cycles 0 (by omega), totalCyclesGo_spec (cycles.take 101) 0 (by omega)]
  rcases le_or_lt cycles.length 101 with h | h
  · rw [List.take_of_length_le h]
  · have hlen : (cycles.take 101).length = 101 := by
      simp [List.length_take]; omega
    rw [hlen, if_neg (by omega), if_neg (by omega)]

/-- Unfolding of `calculate_metric` at the Total Cycles branch of a
non-empty graph. -/
theorem calculate_metric_total_cycles (G : Graph) (cycles : List (List Nat))
    (h : G.nodes ≠ []) :
    calculate_metric G cycles "Total Cycles" = totalCyclesGo 0 cycles := by
  have hn : G.nodes.length ≠ 0 := fun h0 => h (List.length_eq_zero.mp h0)
  simp [calculate_metric, hn]

/-- One highlight group is produced per enumerated cycle, with no cap. -/
theorem length_get_cycle_highlights (cycles : List (List Nat)) :
    (get_cycle_highlights cycles).length = cycles.length := by
  simp [get_cycle_highlights]

/-- The group of the all-cycles highlight at a valid index. -/
theorem getD_get_cycle_highlights (cycles : List (List Nat)) (i : Nat)
    (h : i < cycles.length) :
    (get_cycle_highlights cycles).getD i emptyHighlight =
      { nodes := cycles.getD i []
        edges := cycle_edges (cycles.getD i [])
        color := neon_colors_all.getD (i % 8) ""
        width := 8 } := by
  have hl : i < (get_cycle_highlights cycles).length := by
    rw [length_get_cycle_highlights]; exact h
  rw [List.getD_eq_getElem _ _ hl, List.getD_eq_getElem _ _ h]
  simp [get_cycle_highlights, neon_colors_all]

/-! ## C10 -/

/-- C10: on a graph with zero nodes, `calculate_metric` answers the string
`0` for every metric name other than `Nodes` and `Edges` — the empty-graph
guard sits before every metric branch, including Brittleness Ratio (whose
hard-edge count is 0, so its own branch would report the Infinite
sentinel) and Collaboration Ratio (whose own branch would report 0.0%). -/
theorem c10_empty_graph_metric (G : Graph) (cycles : List (List Nat)) (name : String)
    (hG : G.nodes = []) (h1 : name ≠ "Nodes") (h2 : name ≠ "Edges") :
    calculate_metric G cycles name = "0" := by
  simp [calculate_metric, hG, h1, h2]

/-- Concrete instance of `c10_empty_graph_metric` at the Brittleness Ratio
metric on the empty graph. -/
theorem c10_empty_graph_metric_witness :
    calculate_metric { nodes := [], edges := [] } [] "Brittleness Ratio" = "0" :=
  c10_empty_graph_metric { nodes := [], edges := [] } [] "Brittleness Ratio"
    rfl (by decide) (by decide)

/-! ## C3 -/

/-- C3 counterexample: a graph consisting of 100 disjoint two-node cycles
has exactly 100 simple cycles, so the enumeration reaches the cap of 100 —
yet the metric reports the plain decimal string `100`, not `100+` (the
loop only returns the sentinel after a 101st cycle arrives). -/
theorem c3_counterexample :
    calculate_metric
      { nodes := (List.range 200).map (fun i =>
          (i, { label := toString i
                type := if i % 2 = 0 then "Function" else "Resource"
                layer := "Base Environment"
                agent := ["Unassigned"] }))
        edges := (List.range 100).flatMap (fun i =>
          [(2*i, 2*i+1, "hard"), (2*i+1, 2*i, "hard")]) }
      ((List.range 100).map (fun i => [2*i, 2*i+1]))
      "Total Cycles" = "100" ∧ ("100" : String) ≠ "100+" := by
  constructor
  · rw [calculate_metric_total_cycles _ _ (by decide),
      totalCyclesGo_spec _ 0 (by omega)]
    decide
  · decide

/-- C3 amended: the Total Cycles metric reports the exact decimal count
whenever at most 100 simple cycles exist (including exactly 100), reports
`100+` exactly when more than 100 exist, and consumes at most the first
101 cycles of the enumeration. -/
theorem c3_amended (G : Graph) (cycles : List (List Nat)) (hG : G.nodes ≠ []) :
    (cycles.length ≤ 100 →
       calculate_metric G cycles "Total Cycles" = toString cycles.length)
  ∧ (100 < cycles.length → calculate_metric G cycles "Total Cycles" = "100+")
  ∧ calculate_metric G cycles "Total Cycles" =
      calculate_metric G (cycles.take 101) "Total Cycles" := by
  rw [calculate_metric_total_cycles _ _ hG, calculate_metric_total_cycles _ _ hG]
  refine ⟨fun h => ?_, fun h => ?_, totalCyclesGo_take cycles⟩
  · rw [totalCyclesGo_spec _ 0 (by omega)]; simp [h]
  · rw [totalCyclesGo_spec _ 0 (by omega)]; rw [if_neg (by omega)]

/-- Concrete instance of `c3_amended`: one two-node cycle is reported as
`1`. -/
theorem c3_amended_witness :
    calculate_metric
      { nodes := [(0, { label := "F", type := "Function",
                        layer := "Distributed Work", agent := ["Unassigned"] }),
                  (1, { label := "R", type := "Resource",
                        layer := "Base Environment", agent := ["Unassigned"] })]
        edges := [(0, 1, "hard"), (1, 0, "hard")] }
      [[0, 1]] "Total Cycles" = "1" := by
  have h := (c3_amended
    { nodes := [(0, { label := "F", type := "Function",
                      layer := "Distributed Work", agent := ["Unassigned"] }),
                (1, { label := "R", type := "Resource",
                      layer := "Base Environment", agent := ["Unassigned"] })]
      edges := [(0, 1, "hard"), (1, 0, "hard")] }
    [[0, 1]] (by decide)).1 (by decide)
  simpa using h

/-! ## C2 -/

/-- C2 counterexample: on an enumeration of 101 simple cycles (realized by
101 disjoint two-node cycles) the all-cycles highlight builds 101 groups,
exceeding the cap of 100 that the claim says bounds it, while the Total
Cycles metric over the same enumeration reports the capped sentinel. -/
theorem c2_counterexample :
    100 < (get_cycle_highlights ((List.range 101).map (fun i => [2*i, 2*i+1]))).length
  ∧ totalCyclesGo 0 ((List.range 101).map (fun i => [2*i, 2*i+1])) = "100+" := by
  constructor
  · rw [length_get_cycle_highlights]; simp
  · rw [totalCyclesGo_spec _ 0 (by omega)]; simp

/-- C2 amended: the all-cycles highlight materializes the full, uncapped
cycle enumeration — one group per simple cycle, so its group count equals
the total number of simple cycles and is not bounded by 100; it observes
the same cycle sequence as the Total Cycles metric only while at most 100
cycles exist, the metric reporting exactly that shared count in that
case. -/
theorem c2_amended (cycles : List (List Nat)) :
    (get_cycle_highlights cycles).length = cycles.length
  ∧ (cycles.length ≤ 100 → totalCyclesGo 0 cycles = toString cycles.length) := by
  refine ⟨length_get_cycle_highlights cycles, fun h => ?_⟩
  rw [totalCyclesGo_spec _ 0 (by omega)]; simp [h]

/-- Concrete instance of `c2_amended` on a two-cycle enumeration. -/
theorem c2_amended_witness :
    (get_cycle_highlights [[0, 1], [2, 3]]).length = 2
  ∧ totalCyclesGo 0 [[0, 1], [2, 3]] = "2" := by
  have h := c2_amended [[0, 1], [2, 3]]
  exact ⟨h.1, h.2 (by decide)⟩

/-! ## C6 -/

/-- C6 counterexample: the two cycle-highlight palettes differ at offset 1
(`#00FF00` in the all-cycles palette, `#00C000` in the single-cycle one),
so on any enumeration with a second cycle the single-cycle highlight of
index 1 is drawn in a different color than the all-cycles highlight gives
that index. -/
theorem c6_counterexample :
    ((get_single_cycle_highlight [[0, 1], [2, 3]] 1).getD 0 emptyHighlight).color = "#00C000"
  ∧ ((get_cycle_highlights [[0, 1], [2, 3]]).getD 1 emptyHighlight).color = "#00FF00"
  ∧ ("#00C000" : String) ≠ "#00FF00" := by
  refine ⟨by decide, ?_, by decide⟩
  rw [getD_get_cycle_highlights _ _ (by decide)]
  decide

/-- C6 amended: the single-cycle highlight draws the cycle at a valid
index in the color the all-cycles highlight assigns that index exactly
when the index is congruent to 0, 3, 4, 5 or 6 modulo the palette length
8; at residues 1, 2 and 7 the two palettes disagree. -/
theorem c6_amended (cycles : List (List Nat)) (i : Nat) (h : i < cycles.length)
    (hmod : i % 8 = 0 ∨ i % 8 = 3 ∨ i % 8 = 4 ∨ i % 8 = 5 ∨ i % 8 = 6) :
    ((get_single_cycle_highlight cycles i).getD 0 emptyHighlight).color
      = ((get_cycle_highlights cycles).getD i emptyHighlight).color := by
  rw [getD_get_cycle_highlights _ _ h]
  have hne : ¬ i ≥ cycles.length := by omega
  simp only [get_single_cycle_highlight, hne, if_false]
  rcases hmod with h8 | h8 | h8 | h8 | h8 <;>
    simp [h8, neon_colors_all, neon_colors_single]

/-- Concrete instance of `c6_amended` at index 0. -/
theorem c6_amended_witness :
    ((get_single_cycle_highlight [[0, 1], [2, 3]] 0).getD 0 emptyHighlight).color
      = ((get_cycle_highlights [[0, 1], [2, 3]]).getD 0 emptyHighlight).color :=
  c6_amended [[0, 1], [2, 3]] 0 (by decide) (by decide)

/-! ## C9 -/

/-- Moving one occurrence of a list element to the back preserves the
element set. -/
theorem toFinset_erase_append {α : Type} [DecidableEq α] (l : List α) (a : α)
    (ha : a ∈ l) : (l.erase a ++ [a]).toFinset = l.toFinset := by
  have h1 : (l.erase a ++ [a]).Perm (a :: l.erase a) :=
    List.perm_append_singleton a _
  have h2 : l.Perm (a :: l.erase a) := List.perm_cons_erase ha
  exact (List.toFinset_eq_of_perm _ _ h1).trans
    (List.toFinset_eq_of_perm _ _ h2).symm

/-- C9 counterexample: a node can legitimately hold both a real agent and
the `Unassigned` placeholder (toggling `Unassigned` onto `{B}` reaches
`["B", "Unassigned"]`); toggling a fresh agent `A` twice on that state
drops the placeholder permanently, so the prior agent set is not
restored. -/
theorem c9_counterexample :
    assign_agent_logic (assign_agent_logic ["B", "Unassigned"] "A") "A" = ["B"]
  ∧ assign_agent_logic ["B"] "Unassigned" = ["B", "Unassigned"]
  ∧ "Unassigned" ∈ (["B", "Unassigned"] : List String)
  ∧ "Unassigned" ∉ (["B"] : List String) := by
  refine ⟨by decide, by decide, by decide, by decide⟩

/-- C9 amended: toggling the same agent twice restores the agent set
exactly for every node state satisfying the data-model invariant of a
non-empty duplicate-free agent list, provided the toggled agent is the
`Unassigned` placeholder itself or the state does not mix the placeholder
with real agents (the placeholder, when present, stands alone).  The
mixed states reachable by toggling `Unassigned` onto a real assignment are
exactly the ones the counterexample exhibits. -/
theorem c9_amended (current : List String) (agent_name : String)
    (hne : current ≠ []) (hnd : current.Nodup)
    (hmix : agent_name = "Unassigned" ∨
            ("Unassigned" ∈ current → current = ["Unassigned"])) :
    (assign_agent_logic (assign_agent_logic current agent_name) agent_name).toFinset
      = current.toFinset := by
  rcases hmix with hU | hpure
  · subst hU
    by_cases hin : "Unassigned" ∈ current
    · have hfirst : assign_agent_logic current "Unassigned" =
          if current.erase "Unassigned" = [] then ["Unassigned"]
          else current.erase "Unassigned" := by
        simp [assign_agent_logic, hin]
      by_cases hr : current.erase "Unassigned" = []
      · have hcur : current = ["Unassigned"] := by
          have hlen : current.length - 1 = 0 := by
            rw [← List.length_erase_of_mem hin, hr]; rfl
          have hlen1 : current.length = 1 := by
            have := List.length_pos.mpr hne; omega
          obtain ⟨x, hx⟩ := List.length_eq_one.mp hlen1
          subst hx
          have hx2 : "Unassigned" = x := by simpa using hin
          rw [← hx2]
        rw [hfirst, if_pos hr, hcur]
        decide
      · rw [hfirst, if_neg hr]
        have hnotin : "Unassigned" ∉ current.erase "Unassigned" := by
          intro hmem
          exact absurd ((hnd.mem_erase_iff).mp hmem).1 (by simp)
        have hsecond : assign_agent_logic (current.erase "Unassigned") "Unassigned" =
            current.erase "Unassigned" ++ ["Unassigned"] := by
          simp [assign_agent_logic, hnotin]
        rw [hsecond]
        exact toFinset_erase_append current "Unassigned" hin
    · have hfirst : assign_agent_logic current "Unassigned" =
          current ++ ["Unassigned"] := by
        simp [assign_agent_logic, hin]
      rw [hfirst]
      have hin2 : "Unassigned" ∈ current ++ ["Unassigned"] := by simp
      have herase : (current ++ ["Unassigned"]).erase "Unassigned" = current := by
        rw [List.erase_append_right _ hin]
        simp
      have hsecond : assign_agent_logic (current ++ ["Unassigned"]) "Unassigned" =
          current := by
        simp only [assign_agent_logic]
        have hc1 : (if ("Unassigned" ∈ current ++ ["Unassigned"] ∧
              ("Unassigned" : String) ≠ "Unassigned")
            then (current ++ ["Unassigned"]).erase "Unassigned"
            else current ++ ["Unassigned"]) = current ++ ["Unassigned"] :=
          if_neg (fun h => h.2 rfl)
        rw [hc1, if_pos hin2, herase, if_neg hne]
      rw [hsecond]
  · by_cases hA : agent_name = "Unassigned"
    · subst hA
      by_cases hin : "Unassigned" ∈ current
      · have hcur := hpure hin
        rw [hcur]; decide
      · have hfirst : assign_agent_logic current "Unassigned" =
            current ++ ["Unassigned"] := by
          simp [assign_agent_logic, hin]
        rw [hfirst]
        have hin2 : "Unassigned" ∈ current ++ ["Unassigned"] := by simp
        have herase : (current ++ ["Unassigned"]).erase "Unassigned" = current := by
          rw [List.erase_append_right _ hin]
          simp
        have hsecond : assign_agent_logic (current ++ ["Unassigned"]) "Unassigned" =
            current := by
          simp only [assign_agent_logic]
          have hc1 : (if ("Unassigned" ∈ current ++ ["Unassigned"] ∧
                ("Unassigned" : String) ≠ "Unassigned")
              then (current ++ ["Unassigned"]).erase "Unassigned"
              else current ++ ["Unassigned"]) = current ++ ["Unassigned"] :=
            if_neg (fun h => h.2 rfl)
          rw [hc1, if_pos hin2, herase, if_neg hne]
        rw [hsecond]
    · by_cases hin : "Unassigned" ∈ current
      · have hcur := hpure hin
        rw [hcur]
        have h1 : assign_agent_logic ["Unassigned"] agent_name = [agent_name] := by
          simp only [assign_agent_logic]
          have hc1 : (if ("Unassigned" ∈ (["Unassigned"] : List String) ∧
                agent_name ≠ "Unassigned")
              then (["Unassigned"] : List String).erase "Unassigned"
              else ["Unassigned"]) = [] := by
            rw [if_pos ⟨List.mem_singleton_self "Unassigned", hA⟩,
              List.erase_cons_head]
          rw [hc1, if_neg (List.not_mem_nil agent_name)]
          rfl
        have h2 : assign_agent_logic [agent_name] agent_name = ["Unassigned"] := by
          simp only [assign_agent_logic]
          have hc2 : (if ("Unassigned" ∈ ([agent_name] : List String) ∧
                agent_name ≠ "Unassigned")
              then ([agent_name] : List String).erase "Unassigned"
              else [agent_name]) = [agent_name] :=
            if_neg (fun h => hA (List.mem_singleton.mp h.1).symm)
          rw [hc2, if_pos (List.mem_singleton_self agent_name)]
          simp [List.erase_cons_head]
        rw [h1, h2]
      · by_cases hmem : agent_name ∈ current
        · have hfirst : assign_agent_logic current agent_name =
              if current.erase agent_name = [] then ["Unassigned"]
              else current.erase agent_name := by
            simp [assign_agent_logic, hin, hmem]
          by_cases hr : current.erase agent_name = []
          · have hcur : current = [agent_name] := by
              have hlen : current.length - 1 = 0 := by
                rw [← List.length_erase_of_mem hmem, hr]; rfl
              have hlen1 : current.length = 1 := by
                have := List.length_pos.mpr hne; omega
              obtain ⟨x, hx⟩ := List.length_eq_one.mp hlen1
              subst hx
              have hx2 : agent_name = x := by simpa using hmem
              rw [← hx2]
            rw [hfirst, if_pos hr, hcur]
            have hsecond : assign_agent_logic ["Unassigned"] agent_name =
                [agent_name] := by
              simp only [assign_agent_logic]
              have hc1 : (if ("Unassigned" ∈ (["Unassigned"] : List String) ∧
                    agent_name ≠ "Unassigned")
                  then (["Unassigned"] : List String).erase "Unassigned"
                  else ["Unassigned"]) = [] := by
                rw [if_pos ⟨List.mem_singleton_self "Unassigned", hA⟩,
                  List.erase_cons_head]
              rw [hc1, if_neg (List.not_mem_nil agent_name)]
              rfl
            rw [hsecond]
          · rw [hfirst, if_neg hr]
            have hUnotin : "Unassigned" ∉ current.erase agent_name :=
              fun hm => hin (List.mem_of_mem_erase hm)
            have hAnotin : agent_name ∉ current.erase agent_name := by
              intro hm
              exact absurd ((hnd.mem_erase_iff).mp hm).1 (by simp)
            have hsecond : assign_agent_logic (current.erase agent_name) agent_name =
                current.erase agent_name ++ [agent_name] := by
              simp [assign_agent_logic, hUnotin, hAnotin]
            rw [hsecond]
            exact toFinset_erase_append current agent_name hmem
        · have hfirst : assign_agent_logic current agent_name =
              current ++ [agent_name] := by
            simp [assign_agent_logic, hin, hmem]
          rw [hfirst]
          have hUnotin : "Unassigned" ∉ current ++ [agent_name] := by
            simp only [List.mem_append, List.mem_singleton]
            rintro (h | h)
            · exact hin h
            · exact hA h.symm
          have hmem2 : agent_name ∈ current ++ [agent_name] := by simp
          have herase : (current ++ [agent_name]).erase agent_name = current := by
            rw [List.erase_append_right _ hmem]
            simp
          have hsecond : assign_agent_logic (current ++ [agent_name]) agent_name =
              current := by
            simp only [assign_agent_logic]
            have hc1 : (if ("Unassigned" ∈ current ++ [agent_name] ∧
                  agent_name ≠ "Unassigned")
                then (current ++ [agent_name]).erase "Unassigned"
                else current ++ [agent_name]) = current ++ [agent_name] :=
              if_neg (fun h => hUnotin h.1)
            rw [hc1, if_pos hmem2, herase, if_neg hne]
          rw [hsecond]

/-- Concrete instance of `c9_amended`: toggling agent `A` twice on a node
holding exactly `{Unassigned}` restores `{Unassigned}`. -/
theorem c9_amended_witness :
    (assign_agent_logic (assign_agent_logic ["Unassigned"] "A") "A").toFinset
      = (["Unassigned"] : List String).toFinset :=
  c9_amended ["Unassigned"] "A" (by decide) (by decide) (Or.inr (fun _ => rfl))

/-! ## C5 -/

/-- The counting loop of the Interdependence branch agrees with a direct
count of the edges whose endpoint agent values differ. -/
theorem interdependenceCross_eq_countP (G : Graph) :
    interdependenceCross G
      = G.edges.countP (fun e => agentAttr G e.1 ≠ agentAttr G e.2.1) := by
  unfold interdependenceCross
  generalize G.edges = l
  have key : ∀ (l : List (Nat × Nat × String)) (acc : Nat),
      l.foldl (fun acc e => if agentAttr G e.1 ≠ agentAttr G e.2.1 then acc + 1 else acc) acc
        = acc + l.countP (fun e => agentAttr G e.1 ≠ agentAttr G e.2.1) := by
    intro l
    induction l with
    | nil => intro acc; simp
    | cons e rest ih =>
      intro acc
      rw [List.foldl_cons, List.countP_cons]
      by_cases h : agentAttr G e.1 ≠ agentAttr G e.2.1
      · rw [if_pos h, ih]
        simp [h]
        omega
      · rw [if_neg h, ih]
        simp [h]
  simpa using key l 0

/-- C5 counterexample: an edge whose endpoints carry the overlapping (not
disjoint) agent sets `{A}` and `{A, B}` is still counted by the code,
because the loop compares the attribute values with `!=` rather than
testing set disjointness: the metric reports `1.000` where the claimed
disjointness-based fraction is `0.000`. -/
theorem c5_counterexample :
    calculate_metric
      { nodes := [(0, { label := "u", type := "Function",
                        layer := "Distributed Work", agent := ["A"] }),
                  (1, { label := "v", type := "Resource",
                        layer := "Base Environment", agent := ["A", "B"] })]
        edges := [(0, 1, "hard")] } [] "Interdependence" = "1.000"
  ∧ disjointCrossCount
      { nodes := [(0, { label := "u", type := "Function",
                        layer := "Distributed Work", agent := ["A"] }),
                  (1, { label := "v", type := "Resource",
                        layer := "Base Environment", agent := ["A", "B"] })]
        edges := [(0, 1, "hard")] } = 0
  ∧ formatFixed 3 0 1 = "0.000"
  ∧ ("1.000" : String) ≠ "0.000" := by
  refine ⟨by decide, by decide, by decide, by decide⟩

/-- C5 amended: on every graph with at least one edge the Interdependence
metric equals the number of edges whose two endpoint `agent` attribute
values differ (list inequality, not set disjointness) divided by the total
number of edges, and the interdependence highlight collects exactly those
same unequal-agent edges.  An edge whose endpoint agent sets share an
agent is still counted whenever the two attribute values are not
identical. -/
theorem c5_amended (G : Graph) (cycles : List (List Nat))
    (hn : G.nodes ≠ []) (hm : G.edges ≠ []) :
    calculate_metric G cycles "Interdependence"
      = formatFixed 3
          (G.edges.countP (fun e => agentAttr G e.1 ≠ agentAttr G e.2.1))
          G.edges.length
  ∧ (∀ u v : Nat,
      (u, v) ∈ ((get_interdependence_highlights G).getD 0 emptyHighlight).edges
        ↔ ∃ t, (u, v, t) ∈ G.edges ∧ agentAttr G u ≠ agentAttr G v) := by
  constructor
  · have hnn : G.nodes.length ≠ 0 := fun h => hn (List.length_eq_zero.mp h)
    have hml : G.edges.length ≠ 0 := fun h => hm (List.length_eq_zero.mp h)
    simp [calculate_metric, hnn, hml, interdependenceCross_eq_countP]
  · intro u v
    simp only [get_interdependence_highlights]
    by_cases hc : ((G.edges.filter
        (fun e => agentAttr G e.1 ≠ agentAttr G e.2.1)).map
          (fun e => (e.1, e.2.1))) = []
    · rw [if_pos hc]
      simp only [List.getD_nil, emptyHighlight, List.not_mem_nil, false_iff]
      rintro ⟨t, hmem, hne⟩
      have : ((u, v) : Nat × Nat) ∈ (G.edges.filter
          (fun e => agentAttr G e.1 ≠ agentAttr G e.2.1)).map
            (fun e => (e.1, e.2.1)) := by
        refine List.mem_map.mpr ⟨(u, v, t), ?_, rfl⟩
        refine List.mem_filter.mpr ⟨hmem, ?_⟩
        simpa using hne
      rw [hc] at this
      exact absurd this (List.not_mem_nil _)
    · rw [if_neg hc]
      simp only [List.getD_cons_zero, List.mem_map, List.mem_filter,
        decide_eq_true_eq]
      constructor
      · rintro ⟨e, ⟨hmem, hne⟩, heq⟩
        refine ⟨e.2.2, ?_, ?_⟩
        · have : e = (u, v, e.2.2) := by
            obtain ⟨e1, e2, e3⟩ := e
            simp only [Prod.mk.injEq] at heq
            simp [heq.1, heq.2]
          rw [← this]; exact hmem
        · obtain ⟨e1, e2, e3⟩ := e
          simp only [Prod.mk.injEq] at heq
          rw [← heq.1, ← heq.2]
          exact hne
      · rintro ⟨t, hmem, hne⟩
        exact ⟨(u, v, t), ⟨hmem, by simpa using hne⟩, rfl⟩

/-- Concrete instance of `c5_amended` on a one-edge graph with unequal,
overlapping endpoint agent lists. -/
theorem c5_amended_witness :
    calculate_metric
      { nodes := [(0, { label := "u", type := "Function",
                        layer := "Distributed Work", agent := ["A"] }),
                  (1, { label := "v", type := "Resource",
                        layer := "Base Environment", agent := ["A", "B"] })]
        edges := [(0, 1, "hard")] } [] "Interdependence" = "1.000" := by
  have h := (c5_amended
    { nodes := [(0, { label := "u", type := "Function",
                      layer := "Distributed Work", agent := ["A"] }),
                (1, { label := "v", type := "Resource",
                      layer := "Base Environment", agent := ["A", "B"] })]
      edges := [(0, 1, "hard")] } [] (by decide) (by decide)).1
  rw [h]
  decide

/-! ## C8 -/

/-- `add_edge` never removes an existing edge (the overwrite branch only
replaces the attribute of the same ordered pair). -/
theorem has_edge_add_edge_of (G : Graph) (u v a b : Nat) (t : String)
    (h : has_edge G a b = true) : has_edge (add_edge G u v t) a b = true := by
  unfold add_edge
  by_cases hx : has_edge G u v
  · rw [if_pos hx]
    simp only [has_edge, List.any_eq_true, decide_eq_true_eq] at h ⊢
    obtain ⟨e, he, h1, h2⟩ := h
    by_cases hm : e.1 = u ∧ e.2.1 = v
    · refine ⟨(u, v, t), List.mem_map.mpr ⟨e, he, by rw [if_pos hm]⟩, ?_, ?_⟩
      · rw [← hm.1]; exact h1
      · rw [← hm.2]; exact h2
    · exact ⟨e, List.mem_map.mpr ⟨e, he, by rw [if_neg hm]⟩, h1, h2⟩
  · rw [if_neg hx]
    simp only [has_edge, List.any_eq_true, decide_eq_true_eq] at h ⊢
    obtain ⟨e, he, hcond⟩ := h
    exact ⟨e, List.mem_append_left _ he, hcond⟩

/-- `add_edge` establishes its own edge. -/
theorem has_edge_add_edge_self (G : Graph) (u v : Nat) (t : String) :
    has_edge (add_edge G u v t) u v = true := by
  unfold add_edge
  by_cases hx : has_edge G u v
  · rw [if_pos hx]
    simp only [has_edge, List.any_eq_true, decide_eq_true_eq] at hx ⊢
    obtain ⟨e, he, h1, h2⟩ := hx
    exact ⟨(u, v, t),
      List.mem_map.mpr ⟨e, he, by rw [if_pos ⟨h1, h2⟩]⟩, rfl, rfl⟩
  · rw [if_neg hx]
    simp only [has_edge, List.any_eq_true, decide_eq_true_eq]
    exact ⟨(u, v, t), List.mem_append_right _ (by simp), rfl, rfl⟩

/-- The edge-loading loop never removes an edge already present. -/
theorem has_edge_importEdges_of (entries : List JsonEdgeEntry)
    (l2i : List (String × Nat)) :
    ∀ (G : Graph) (a b : Nat), has_edge G a b = true →
      has_edge (importEdges entries l2i G) a b = true := by
  induction entries with
  | nil => intro G a b h; simpa [importEdges] using h
  | cons e rest ih =>
    intro G a b h
    show has_edge (importEdges rest l2i _) a b = true
    rcases hs : dictFind l2i e.source with _ | u <;>
      rcases ht : dictFind l2i e.target with _ | v <;>
      simp only [hs, ht] <;>
      exact ih _ a b (by first
        | exact h
        | exact has_edge_add_edge_of G _ _ a b _ h)

/-- Every entry of the edge array whose two labels resolve produces its
edge in the loaded graph — no condition on the endpoint types is ever
consulted. -/
theorem importEdges_mem_has_edge (entries : List JsonEdgeEntry)
    (l2i : List (String × Nat)) :
    ∀ (G : Graph) (e : JsonEdgeEntry) (u v : Nat), e ∈ entries →
      dictFind l2i e.source = some u → dictFind l2i e.target = some v →
      has_edge (importEdges entries l2i G) u v = true := by
  induction entries with
  | nil => intro G e u v h; exact absurd h (List.not_mem_nil e)
  | cons f rest ih =>
    intro G e u v hmem hs ht
    rcases List.mem_cons.mp hmem with rfl | hrest
    · have hstep : importEdges (e :: rest) l2i G
          = importEdges rest l2i (add_edge G u v e.edgeType) := by
        simp only [importEdges, List.foldl_cons, hs, ht]
      rw [hstep]
      exact has_edge_importEdges_of rest l2i _ u v
        (has_edge_add_edge_self G u v e.edgeType)
    · exact ih _ e u v hrest hs ht

/-- C8: the bipartite (Function and Resource alternation) check lives only
on the interactive creation path.  First part: with a start node selected,
clicking a different node of the same `type` attribute reports the
connection error and returns the graph unchanged — no edge is created.
Second part: the import path adds an edge for every entry whose endpoint
labels resolve, with no look at the endpoint types, so a document can
create a same-type edge. -/
theorem c8_validation_asymmetry :
    (∀ (G : Graph) (u v : Nat) (ih : Bool), u ≠ v →
       typeAttr G u = typeAttr G v →
       handle_add_edge G u v ih = (G, some "TypeMismatch"))
  ∧ (∀ (doc : JsonDoc) (e : JsonEdgeEntry) (u v : Nat), e ∈ doc.edgesD →
       dictFind (buildLabelToId doc.nodesD) e.source = some u →
       dictFind (buildLabelToId doc.nodesD) e.target = some v →
       has_edge (importDoc doc) u v = true) := by
  constructor
  · intro G u v ihard huv htype
    simp [handle_add_edge, huv, htype]
  · intro doc e u v hmem hs ht
    exact importEdges_mem_has_edge doc.edgesD _ _ e u v hmem hs ht

/-- Concrete instance of `c8_validation_asymmetry`: two Function nodes
cannot be connected interactively, while a document edge between two
Function-typed labels is loaded. -/
theorem c8_validation_asymmetry_witness :
    handle_add_edge
      { nodes := [(0, { label := "a", type := "Function",
                        layer := "Distributed Work", agent := ["Unassigned"] }),
                  (1, { label := "b", type := "Function",
                        layer := "Distributed Work", agent := ["Unassigned"] })]
        edges := [] } 0 1 true
      = ({ nodes := [(0, { label := "a", type := "Function",
                           layer := "Distributed Work", agent := ["Unassigned"] }),
                     (1, { label := "b", type := "Function",
                           layer := "Distributed Work", agent := ["Unassigned"] })]
           edges := [] }, some "TypeMismatch")
  ∧ has_edge (importDoc
      { nodesD := [("a", ⟨"DistributedWorkFunction", "a"⟩),
                   ("b", ⟨"DistributedWorkFunction", "b"⟩)]
        edgesD := [⟨"a", "b", "hard"⟩]
        agentsD := [] }) 0 1 = true := by
  constructor
  · exact c8_validation_asymmetry.1 _ 0 1 true (by decide) (by decide)
  · exact c8_validation_asymmetry.2 _ ⟨"a", "b", "hard"⟩ 0 1
      (by decide) (by decide) (by decide)

/-! ## C4 -/

/-- C4: the claim is the intent of the spec (snapshots must be immutable
once pushed) and the code breaks it.  RenameAgent is on the mutation
surface and its handler respects the snapshot discipline — `save_state()`
first, then the mutation — yet Undo does not restore the pre-mutation
agent set: the snapshot shares the node's agent-list container with the
live graph, and the rename writes that container in place.  Concretely:
a one-node graph whose agent list is `["A"]`, one RenameAgent mutation
A → B, one Undo.  The snapshot graph value is restored exactly (second
conjunct), but the agent set it presents reads `["B"]`, not the
pre-mutation `["A"]` (first and third conjuncts). -/
theorem c4_snapshot_aliasing :
    agentSetOf
      { g := { nodes := [(0, { label := "F", type := "Function",
                               layer := "Distributed Work", agentRef := 0 })]
               edges := [] }
        undo_stack := [], redo_stack := [], store := [(0, ["A"])] } 0 = ["A"]
  ∧ (undo (edit_agent_save
      { g := { nodes := [(0, { label := "F", type := "Function",
                               layer := "Distributed Work", agentRef := 0 })]
               edges := [] }
        undo_stack := [], redo_stack := [], store := [(0, ["A"])] } "A" "B")).g
      = ({ g := { nodes := [(0, { label := "F", type := "Function",
                                  layer := "Distributed Work", agentRef := 0 })]
                  edges := [] }
           undo_stack := [], redo_stack := [], store := [(0, ["A"])] } : AppState).g
  ∧ agentSetOf (undo (edit_agent_save
      { g := { nodes := [(0, { label := "F", type := "Function",
                               layer := "Distributed Work", agentRef := 0 })]
               edges := [] }
        undo_stack := [], redo_stack := [], store := [(0, ["A"])] } "A" "B")) 0
      = ["B"]
  ∧ (["B"] : List String) ≠ ["A"] := by
  refine ⟨by decide, by decide, by decide, by decide⟩

/-! ## C7 -/

/-- The group of the all-communities highlight at a valid index. -/
theorem getD_get_modularity_highlights (G : Graph) (communities : List (List Nat))
    (i : Nat) (h : i < communities.length) :
    (get_modularity_highlights G communities).getD i emptyHighlight =
      { nodes := communities.getD i []
        edges := intra_edges G (communities.getD i [])
        color := community_colors.getD (i % 8) ""
        width := 10 } := by
  have hl : i < (get_modularity_highlights G communities).length := by
    simpa [get_modularity_highlights] using h
  rw [List.getD_eq_getElem _ _ hl, List.getD_eq_getElem _ _ h]
  simp [get_modularity_highlights, community_colors]

/-- A stable sort by descending size leaves an already size-sorted list
unchanged (networkx returns the greedy modularity partition sorted largest
first, so the sort inside the single-community path is the identity). -/
theorem sortBySizeDesc_eq_self (communities : List (List Nat))
    (h : communities.Sorted (fun a b => b.length ≤ a.length)) :
    sortBySizeDesc communities = communities :=
  List.Sorted.insertionSort_eq h

/-- C7: assuming the community oracle returns the partition sorted by
descending community size (the documented networkx contract for
`greedy_modularity_communities`), the single-community highlight at every
valid index is exactly the group the all-communities highlight builds at
that index — same node list, same intra-community edge list, same palette
color, same width — and that group's edge list contains precisely the
edges of the graph with both endpoints inside the community. -/
theorem c7_community_consistency (G : Graph) (communities : List (List Nat)) (i : Nat)
    (hsorted : communities.Sorted (fun a b => b.length ≤ a.length))
    (hi : i < communities.length) :
    get_single_modularity_highlight G communities i
      = [(get_modularity_highlights G communities).getD i emptyHighlight]
  ∧ (∀ u v : Nat,
      (u, v) ∈ ((get_modularity_highlights G communities).getD i emptyHighlight).edges
        ↔ (u ∈ communities.getD i [] ∧ v ∈ communities.getD i [] ∧
           has_edge G u v = true)) := by
  constructor
  · simp only [get_single_modularity_highlight,
      sortBySizeDesc_eq_self communities hsorted]
    rw [if_neg (by omega), getD_get_modularity_highlights G communities i hi]
    simp [community_colors]
  · intro u v
    rw [getD_get_modularity_highlights G communities i hi]
    simp only [intra_edges, List.mem_flatMap, List.mem_map, List.mem_filter]
    constructor
    · rintro ⟨a, ha, b, ⟨hb, he⟩, heq⟩
      obtain ⟨h1, h2⟩ := Prod.mk.injEq .. ▸ heq
      subst h1; subst h2
      exact ⟨ha, hb, he⟩
    · rintro ⟨hu, hv, he⟩
      exact ⟨u, hu, v, ⟨hv, he⟩, rfl⟩

/-- Concrete instance of `c7_community_consistency` on a two-community
partition of a three-node graph. -/
theorem c7_community_consistency_witness :
    get_single_modularity_highlight
      { nodes := [(0, { label := "F", type := "Function",
                        layer := "Distributed Work", agent := ["A"] }),
                  (1, { label := "R", type := "Resource",
                        layer := "Base Environment", agent := ["A"] }),
                  (2, { label := "R2", type := "Resource",
                        layer := "Base Environment", agent := ["B"] })]
        edges := [(0, 1, "hard")] } [[0, 1], [2]] 0
      = [(get_modularity_highlights
          { nodes := [(0, { label := "F", type := "Function",
                            layer := "Distributed Work", agent := ["A"] }),
                      (1, { label := "R", type := "Resource",
                            layer := "Base Environment", agent := ["A"] }),
                      (2, { label := "R2", type := "Resource",
                            layer := "Base Environment", agent := ["B"] })]
            edges := [(0, 1, "hard")] } [[0, 1], [2]]).getD 0 emptyHighlight] :=
  (c7_community_consistency _ [[0, 1], [2]] 0 (by decide) (by decide)).1

/-! ## C1 auxiliary lemmas -/

/-- A fold of dict insertions whose keys are fresh (absent from the
accumulator and pairwise distinct) is a plain append of the key-value
pairs. -/
theorem foldl_dictInsert_fresh {β γ : Type} (key : γ → String) (val : γ → β) :
    ∀ (l : List γ) (acc : List (String × β)),
      (∀ x ∈ l, ∀ q ∈ acc, q.1 ≠ key x) →
      (l.map key).Nodup →
      l.foldl (fun a x => dictInsert a (key x) (val x)) acc
        = acc ++ l.map (fun x => (key x, val x)) := by
  intro l
  induction l with
  | nil => intro acc _ _; simp
  | cons x rest ih =>
    intro acc hfresh hnd
    rw [List.foldl_cons]
    have hnotin : ¬ (acc.any (fun p => p.1 = key x) = true) := by
      intro hcon
      rcases List.any_eq_true.mp hcon with ⟨q, hq, hk⟩
      exact hfresh x (List.mem_cons_self x rest) q hq (by simpa using hk)
    have hstep : dictInsert acc (key x) (val x) = acc ++ [(key x, val x)] := by
      simp only [dictInsert]
      rw [if_neg hnotin]
    rw [hstep]
    rw [List.map_cons, List.nodup_cons] at hnd
    have hfresh2 : ∀ y ∈ rest, ∀ q ∈ acc ++ [(key x, val x)], q.1 ≠ key y := by
      intro y hy q hq
      rcases List.mem_append.mp hq with hqa | hqx
      · exact hfresh y (List.mem_cons_of_mem x hy) q hqa
      · have hqe : q = (key x, val x) := by simpa using hqx
        rw [hqe]
        intro hk
        refine hnd.1 ?_
        rw [show key x = key y from hk]
        exact List.mem_map_of_mem key hy
    rw [ih (acc ++ [(key x, val x)]) hfresh2 hnd.2]
    simp

/-- In an association list with pairwise-distinct keys, `find?` on a
member key returns exactly that member. -/
theorem find?_key_eq_of_nodup {κ β : Type} [DecidableEq κ]
    (m : List (κ × β)) (k : κ) (v : β)
    (hnd : (m.map (fun p => p.1)).Nodup) (hmem : (k, v) ∈ m) :
    m.find? (fun p => p.1 = k) = some (k, v) := by
  induction m with
  | nil => exact absurd hmem (List.not_mem_nil _)
  | cons p rest ih =>
    rw [List.map_cons, List.nodup_cons] at hnd
    rcases List.mem_cons.mp hmem with rfl | hrest
    · rw [List.find?_cons_of_pos _ (by simp)]
    · have hk : k ∈ rest.map (fun p => p.1) :=
        List.mem_map.mpr ⟨(k, v), hrest, rfl⟩
      have hne : ¬ (p.1 = k) := fun h => hnd.1 (h ▸ hk)
      rw [List.find?_cons_of_neg _ (by simpa using hne)]
      exact ih hnd.2 hrest

/-- Export writes a Nodes object with one entry per node, in node order,
when the labels are pairwise distinct. -/
theorem exportNodesDict_eq (G : Graph)
    (hnd : (G.nodes.map (fun p => p.2.label)).Nodup) :
    exportNodesDict G
      = G.nodes.map (fun p =>
          (p.2.label, (⟨encodeTypeCode p.2, p.2.label⟩ : JsonNodeEntry))) := by
  unfold exportNodesDict
  have h := foldl_dictInsert_fresh (fun p : Nat × NodeData => p.2.label)
    (fun p => (⟨encodeTypeCode p.2, p.2.label⟩ : JsonNodeEntry))
    G.nodes [] (by simp) hnd
  simpa using h

/-- The label-to-id map is the label-indexed enumeration when the Nodes
keys are pairwise distinct. -/
theorem buildLabelToId_eq (nodesD : List (String × JsonNodeEntry))
    (hnd : (nodesD.map (fun p => p.1)).Nodup) :
    buildLabelToId nodesD = nodesD.enum.map (fun ip => (ip.2.1, ip.1)) := by
  unfold buildLabelToId
  have hkeys : (nodesD.enum.map (fun ip : Nat × (String × JsonNodeEntry) => ip.2.1)).Nodup := by
    have : (nodesD.enum.map (fun ip : Nat × (String × JsonNodeEntry) => ip.2.1))
        = (nodesD.enum.map Prod.snd).map (fun p => p.1) := by
      rw [List.map_map]; rfl
    rw [this, List.enum_map_snd]
    exact hnd
  have h := foldl_dictInsert_fresh
    (fun ip : Nat × (String × JsonNodeEntry) => ip.2.1)
    (fun ip => ip.1) nodesD.enum [] (by simp) hkeys
  simpa using h

/-- Round trip of the Type string: encoding a valid layer and node type
and parsing it back is the identity. -/
theorem parse_encode (t l : String)
    (ht : t = "Function" ∨ t = "Resource") (hl : l ∈ LAYER_ORDER) :
    parse_node_attributes (stripSpaces l ++ t) = (t, l) := by
  simp only [LAYER_ORDER, List.mem_cons, List.not_mem_nil, or_false] at hl
  rcases ht with rfl | rfl <;>
    rcases hl with rfl | rfl | rfl | rfl <;>
    decide

/-- `add_edge` does not touch the node list. -/
theorem add_edge_nodes (G : Graph) (u v : Nat) (t : String) :
    (add_edge G u v t).nodes = G.nodes := by
  unfold add_edge
  split <;> rfl

/-- The edge-loading loop does not touch the node list. -/
theorem importEdges_nodes (entries : List JsonEdgeEntry)
    (l2i : List (String × Nat)) :
    ∀ G : Graph, (importEdges entries l2i G).nodes = G.nodes := by
  induction entries with
  | nil => intro G; rfl
  | cons e rest ih =>
    intro G
    show (importEdges rest l2i _).nodes = G.nodes
    rw [ih]
    rcases hs : dictFind l2i e.source with _ | u <;>
      rcases ht : dictFind l2i e.target with _ | v <;>
      simp only [hs, ht] <;>
      first
        | rfl
        | exact add_edge_nodes G u v e.edgeType

/-- Updating the entries of one key inside an association list commutes
with `find?` on any key (the update never changes a key). -/
theorem find?_map_update (k v k2 : String) :
    ∀ m : List (String × List String),
      (m.map (fun p => if p.1 = k then (p.1, p.2 ++ [v]) else p)).find?
          (fun p => p.1 = k2)
        = (m.find? (fun p => p.1 = k2)).map
            (fun p => if p.1 = k then (p.1, p.2 ++ [v]) else p) := by
  intro m
  induction m with
  | nil => rfl
  | cons q rest ih =>
    by_cases hq : q.1 = k2
    · have hkey : ((if q.1 = k then (q.1, q.2 ++ [v]) else q).1 = k2) := by
        split
        · simpa using hq
        · exact hq
      rw [List.map_cons,
        List.find?_cons_of_pos _ (by simpa using hkey),
        List.find?_cons_of_pos _ (by simpa using hq)]
      rfl
    · have hkey : ¬ ((if q.1 = k then (q.1, q.2 ++ [v]) else q).1 = k2) := by
        split
        · simpa using hq
        · exact hq
      rw [List.map_cons,
        List.find?_cons_of_neg _ (by simpa using hkey),
        List.find?_cons_of_neg _ (by simpa using hq)]
      exact ih

/-- The Authority-list values stored under a label after one
`setdefault(k, []).append(v)` step. -/
theorem valsOf_assocAppend (m : List (String × List String)) (k v k2 : String) :
    (dictFind (assocAppend m k v) k2).getD []
      = if k2 = k then (dictFind m k2).getD [] ++ [v]
        else (dictFind m k2).getD [] := by
  by_cases hany : (m.any (fun p => p.1 = k)) = true
  · simp only [assocAppend, if_pos hany, dictFind, find?_map_update]
    by_cases hk2 : k2 = k
    · subst hk2
      rcases List.any_eq_true.mp hany with ⟨p, hp, hpk⟩
      rcases hfind : m.find? (fun p => p.1 = k2) with _ | q
      · have := List.find?_eq_none.mp hfind p hp
        exact absurd hpk this
      · have hq : q.1 = k2 := by simpa using List.find?_some hfind
        rw [hfind, if_pos rfl]
        simp [hq]
    · rw [if_neg hk2]
      rcases hfind : m.find? (fun p => p.1 = k2) with _ | q
      · rw [hfind]; rfl
      · have hq : q.1 = k2 := by simpa using List.find?_some hfind
        have hqk : ¬ q.1 = k := fun h => hk2 (by rw [← hq, h])
        rw [hfind]
        simp [hqk]
  · simp only [assocAppend, if_neg hany, dictFind]
    rw [List.find?_append]
    by_cases hk2 : k2 = k
    · subst hk2
      have hnone : m.find? (fun p => p.1 = k2) = none := by
        rw [List.find?_eq_none]
        intro p hp
        simpa using fun h => hany (List.any_eq_true.mpr ⟨p, hp, by simpa using h⟩)
      rw [hnone, if_pos rfl]
      simp
    · rw [if_neg hk2]
      rcases hfind : m.find? (fun p => p.1 = k2) with _ | q
      · rw [hfind]
        have : ([(k, [v])].find? (fun p => p.1 = k2)) = none := by
          rw [List.find?_eq_none]
          intro p hp
          have : p = (k, [v]) := by simpa using hp
          rw [this]
          simpa using fun h => hk2 h.symm
        simp [this]
      · rw [hfind]
        rfl

/-- The values accumulated for a label by folding one Authority list into
`label_to_agents`. -/
theorem valsOf_authFold (a : String) :
    ∀ (auth : List String) (m : List (String × List String)) (l : String),
      (dictFind (auth.foldl (fun m lbl => assocAppend m lbl a) m) l).getD []
        = (dictFind m l).getD [] ++ List.replicate (auth.count l) a := by
  intro auth
  induction auth with
  | nil => intro m l; simp
  | cons lbl rest ih =>
    intro m l
    rw [List.foldl_cons, ih, valsOf_assocAppend, List.count_cons]
    by_cases h : l = lbl
    · subst h
      rw [if_pos rfl]
      simp [List.replicate_succ, List.append_assoc]
    · rw [if_neg h]
      have hbeq : (lbl == l) = false :=
        beq_eq_false_iff_ne.mpr (fun hh => h hh.symm)
      rw [hbeq]
      simp

/-- The values stored for a label by the full `label_to_agents`
construction: one copy of each agent name per matching Authority entry, in
Agents-object order. -/
theorem valsOf_buildLabelToAgents (agentsD : List (String × List String)) (l : String) :
    (dictFind (buildLabelToAgents agentsD) l).getD []
      = agentsD.flatMap (fun p => List.replicate (p.2.count l) p.1) := by
  have key : ∀ (A : List (String × List String)) (m : List (String × List String)),
      (dictFind (A.foldl
          (fun m p => p.2.foldl (fun m lbl => assocAppend m lbl p.1) m) m) l).getD []
        = (dictFind m l).getD []
            ++ A.flatMap (fun p => List.replicate (p.2.count l) p.1) := by
    intro A
    induction A with
    | nil => intro m; simp
    | cons p rest ih =>
      intro m
      rw [List.foldl_cons, ih, valsOf_authFold]
      simp [List.append_assoc]
  have h := key agentsD []
  simpa [buildLabelToAgents] using h

/-- Membership in the inverted Authority map. -/
theorem mem_valsOf_buildLabelToAgents (agentsD : List (String × List String))
    (l x : String) :
    x ∈ (dictFind (buildLabelToAgents agentsD) l).getD []
      ↔ ∃ p ∈ agentsD, p.1 = x ∧ l ∈ p.2 := by
  rw [valsOf_buildLabelToAgents]
  simp only [List.mem_flatMap, List.mem_replicate]
  constructor
  · rintro ⟨p, hp, hcount, rfl⟩
    refine ⟨p, hp, rfl, ?_⟩
    have : 0 < p.2.count l := Nat.pos_of_ne_zero hcount
    exact List.count_pos_iff.mp this
  · rintro ⟨p, hp, rfl, hl⟩
    exact ⟨p, hp, Nat.pos_iff_ne_zero.mp (List.count_pos_iff.mpr hl), rfl⟩

/-- A non-`none` single-default lookup agrees with the empty-default
lookup. -/
theorem getD_eq_of_ne_nil (o : Option (List String))
    (h : o.getD [] ≠ []) : o.getD ["Unassigned"] = o.getD [] := by
  cases o with
  | none => simp at h
  | some vs => rfl

/-- Agent round trip: for a node of a graph with pairwise-distinct labels
whose agent list is non-empty and references only registered agents, the
agent list reconstructed from the exported Authority lists carries exactly
the same agents. -/
theorem agent_roundtrip (G : Graph) (agents : List String) (p : Nat × NodeData)
    (hmem : p ∈ G.nodes)
    (hlblnd : (G.nodes.map (fun q => q.2.label)).Nodup)
    (hne : p.2.agent ≠ []) (hsub : ∀ a ∈ p.2.agent, a ∈ agents) :
    ∀ x, (x ∈ (dictFind (buildLabelToAgents (exportAuthorities G agents))
          p.2.label).getD ["Unassigned"])
      ↔ x ∈ p.2.agent := by
  have hchar : ∀ x, (x ∈ (dictFind (buildLabelToAgents (exportAuthorities G agents))
        p.2.label).getD [])
      ↔ (x ∈ agents ∧ x ∈ p.2.agent) := by
    intro x
    rw [mem_valsOf_buildLabelToAgents]
    constructor
    · rintro ⟨q, hq, hqx, hql⟩
      rcases List.mem_map.mp hq with ⟨a, ha, rfl⟩
      simp only at hqx hql
      subst hqx
      rcases List.mem_flatMap.mp hql with ⟨nodep, hnodep, hlbl⟩
      rcases List.mem_map.mp hlbl with ⟨y, hy, hylbl⟩
      rcases List.mem_filter.mp hy with ⟨hyagent, hyx⟩
      have heqnode : nodep = p := by
        exact List.inj_on_of_nodup_map hlblnd hnodep hmem hylbl
      refine ⟨ha, ?_⟩
      have hyx2 : y = a := by simpa using hyx
      rw [← hyx2, ← heqnode]
      exact hyagent
    · rintro ⟨hxag, hxp⟩
      refine ⟨(x, G.nodes.flatMap (fun q =>
          (q.2.agent.filter (fun z => z = x)).map (fun _ => q.2.label))), ?_, rfl, ?_⟩
      · exact List.mem_map.mpr ⟨x, hxag, rfl⟩
      · exact List.mem_flatMap.mpr ⟨p, hmem,
          List.mem_map.mpr ⟨x, List.mem_filter.mpr ⟨hxp, by simp⟩, rfl⟩⟩
  have hnonempty : (dictFind (buildLabelToAgents (exportAuthorities G agents))
      p.2.label).getD [] ≠ [] := by
    rcases List.exists_mem_of_ne_nil p.2.agent hne with ⟨a, ha⟩
    intro hnil
    have := (hchar a).mpr ⟨hsub a ha, ha⟩
    rw [hnil] at this
    exact absurd this (List.not_mem_nil a)
  intro x
  rw [getD_eq_of_ne_nil _ hnonempty, hchar]
  exact and_iff_right_of_imp (fun h => hsub x h)

/-- Loading the document exported from a graph with pairwise-distinct
labels, valid types and valid layers rebuilds, node for node in order,
the same label, type and layer, with the agent list reconstructed from
the Authority lists; the internal ids become the enumeration indices. -/
theorem importNodes_exportDoc (G : Graph) (agents : List String)
    (hnd : (G.nodes.map (fun p => p.2.label)).Nodup)
    (htype : ∀ p ∈ G.nodes, p.2.type = "Function" ∨ p.2.type = "Resource")
    (hlayer : ∀ p ∈ G.nodes, p.2.layer ∈ LAYER_ORDER) :
    importNodes (exportDoc G agents)
      = G.nodes.enum.map (fun jp => (jp.1, importedNode G agents jp.2.2)) := by
  have h1 : (exportDoc G agents).nodesD
      = G.nodes.map (fun p =>
          (p.2.label, (⟨encodeTypeCode p.2, p.2.label⟩ : JsonNodeEntry))) :=
    exportNodesDict_eq G hnd
  unfold importNodes
  rw [show (exportDoc G agents).agentsD = exportAuthorities G agents from rfl,
    h1, List.enum_map, List.map_map]
  apply List.map_congr_left
  intro jp hjp
  have hmem : jp.2 ∈ G.nodes := by
    have h3 : jp.2 ∈ G.nodes.enum.map Prod.snd := List.mem_map_of_mem Prod.snd hjp
    rwa [List.enum_map_snd] at h3
  have hparse : parse_node_attributes (encodeTypeCode jp.2.2)
      = (jp.2.2.type, jp.2.2.layer) :=
    parse_encode jp.2.2.type jp.2.2.layer (htype jp.2 hmem) (hlayer jp.2 hmem)
  obtain ⟨j, p⟩ := jp
  simp only [Function.comp_apply, Prod.map_apply, id_eq]
  simp only at hparse
  simp only [hparse, importedNode]

/-- `getNode` on a graph with pairwise-distinct ids returns the member
record. -/
theorem getNode_eq_of_nodup (E : Graph) (j : Nat) (nd : NodeData)
    (hnd : (E.nodes.map (fun p => p.1)).Nodup) (hmem : (j, nd) ∈ E.nodes) :
    getNode E j = some nd := by
  unfold getNode
  rw [find?_key_eq_of_nodup E.nodes j nd hnd hmem]
  rfl

/-- When every entry of the edge array resolves, the resolved ordered
pairs are pairwise distinct, and none of them is already present, the
edge-loading loop appends exactly the resolved edges in order. -/
theorem importEdges_edges_eq (entries : List JsonEdgeEntry)
    (l2i : List (String × Nat)) :
    ∀ (G0 : Graph),
      (∀ e ∈ entries, ∃ u v,
        dictFind l2i e.source = some u ∧ dictFind l2i e.target = some v) →
      ((entries.map (fun e =>
        ((dictFind l2i e.source).getD 0, (dictFind l2i e.target).getD 0))).Nodup) →
      (∀ e ∈ entries,
        ((dictFind l2i e.source).getD 0, (dictFind l2i e.target).getD 0)
          ∉ G0.edges.map (fun d => (d.1, d.2.1))) →
      (importEdges entries l2i G0).edges
        = G0.edges ++ entries.map (fun e =>
            ((dictFind l2i e.source).getD 0, (dictFind l2i e.target).getD 0,
             e.edgeType)) := by
  induction entries with
  | nil => intro G0 _ _ _; simp [importEdges]
  | cons e rest ih =>
    intro G0 hres hnodup hfresh
    obtain ⟨u, v, hs, ht⟩ := hres e (List.mem_cons_self e rest)
    have hstep : importEdges (e :: rest) l2i G0
        = importEdges rest l2i (add_edge G0 u v e.edgeType) := by
      simp only [importEdges, List.foldl_cons, hs, ht]
    have hnotin : ¬ (has_edge G0 u v = true) := by
      intro hcon
      have hf := hfresh e (List.mem_cons_self e rest)
      rw [hs, ht] at hf
      simp only [Option.getD_some] at hf
      rcases List.any_eq_true.mp hcon with ⟨d, hd, hcond⟩
      obtain ⟨h1, h2⟩ : d.1 = u ∧ d.2.1 = v := by simpa using hcond
      exact hf (List.mem_map.mpr ⟨d, hd, by rw [h1, h2]⟩)
    have hadd : (add_edge G0 u v e.edgeType).edges
        = G0.edges ++ [(u, v, e.edgeType)] := by
      unfold add_edge
      rw [if_neg hnotin]
    rw [List.map_cons, List.nodup_cons] at hnodup
    have hres2 : ∀ x ∈ rest, ∃ a b,
        dictFind l2i x.source = some a ∧ dictFind l2i x.target = some b :=
      fun x hx => hres x (List.mem_cons_of_mem e hx)
    have hfresh2 : ∀ x ∈ rest,
        ((dictFind l2i x.source).getD 0, (dictFind l2i x.target).getD 0)
          ∉ (add_edge G0 u v e.edgeType).edges.map (fun d => (d.1, d.2.1)) := by
      intro x hx hcon
      rw [hadd, List.map_append] at hcon
      rcases List.mem_append.mp hcon with hold | hnew
      · exact hfresh x (List.mem_cons_of_mem e hx) hold
      · have hxy : ((dictFind l2i x.source).getD 0, (dictFind l2i x.target).getD 0)
            = (u, v) := by simpa using hnew
        refine hnodup.1 ?_
        rw [hs, ht]
        simp only [Option.getD_some]
        rw [← hxy]
        exact List.mem_map_of_mem _ hx

    rw [hstep, ih (add_edge G0 u v e.edgeType) hres2 hnodup.2 hfresh2, hadd,
      List.append_assoc]
    congr 1
    rw [List.map_cons, hs, ht]
    rfl

/-! ## C1 -/

/-- C1 counterexample: labels are the external identity on serialization,
but nothing stops two nodes from sharing one (every interactively created
Function node starts with the label `F`).  Exporting a graph with a
Function node and a Resource node both labelled `X` collapses them into
one Nodes entry (the dict write overwrites), and importing yields a single
Resource node: the Function node has no counterpart, so the claimed
round-trip fails on this graph even though it satisfies every data-model
invariant. -/
theorem c1_counterexample :
    (importDoc (exportDoc
      { nodes := [(0, { label := "X", type := "Function",
                        layer := "Distributed Work", agent := ["Unassigned"] }),
                  (1, { label := "X", type := "Resource",
                        layer := "Base Environment", agent := ["Unassigned"] })]
        edges := [] } ["Unassigned"])).nodes.length = 1
  ∧ (importDoc (exportDoc
      { nodes := [(0, { label := "X", type := "Function",
                        layer := "Distributed Work", agent := ["Unassigned"] }),
                  (1, { label := "X", type := "Resource",
                        layer := "Base Environment", agent := ["Unassigned"] })]
        edges := [] } ["Unassigned"])).nodes.all
        (fun q => q.2.type ≠ "Function")
  ∧ (0, ({ label := "X", type := "Function", layer := "Distributed Work",
           agent := ["Unassigned"] } : NodeData)) ∈
      ({ nodes := [(0, { label := "X", type := "Function",
                         layer := "Distributed Work", agent := ["Unassigned"] }),
                   (1, { label := "X", type := "Resource",
                         layer := "Base Environment", agent := ["Unassigned"] })]
         edges := [] } : Graph).nodes := by
  refine ⟨by decide, by decide, by decide⟩

/-- C1 amended: Export followed by Import round-trips every node's
(label, type, layer, agent-set) and every edge's (source-label,
target-label, edge-type) — the edge triples even in order — for every
graph satisfying the data-model invariants (`ValidGraph`) together with
the one extra hypothesis the counterexample forces: pairwise-distinct node
labels.  Internal ids are renumbered to enumeration indices and positions
are synthesized, exactly as the claim allows. -/
theorem c1_amended (G : Graph) (agents : List String) (hv : ValidGraph G agents) :
    (∀ p ∈ G.nodes, ∃ q ∈ (importDoc (exportDoc G agents)).nodes,
        q.2.label = p.2.label ∧ q.2.type = p.2.type ∧ q.2.layer = p.2.layer ∧
        (∀ x : String, x ∈ q.2.agent ↔ x ∈ p.2.agent))
  ∧ (∀ q ∈ (importDoc (exportDoc G agents)).nodes, ∃ p ∈ G.nodes,
        q.2.label = p.2.label ∧ q.2.type = p.2.type ∧ q.2.layer = p.2.layer ∧
        (∀ x : String, x ∈ q.2.agent ↔ x ∈ p.2.agent))
  ∧ (importDoc (exportDoc G agents)).edges.map
        (fun e => (labelAttr (importDoc (exportDoc G agents)) e.1,
                   labelAttr (importDoc (exportDoc G agents)) e.2.1, e.2.2))
      = G.edges.map (fun e => (labelAttr G e.1, labelAttr G e.2.1, e.2.2)) := by
  obtain ⟨hlbl, hid, htype, hlayer, hagent, hend, hpairs⟩ := hv
  have hnodes2 : (importDoc (exportDoc G agents)).nodes
      = importNodes (exportDoc G agents) := by
    unfold importDoc
    rw [importEdges_nodes]
  have hshape : importNodes (exportDoc G agents)
      = G.nodes.enum.map (fun jp => (jp.1, importedNode G agents jp.2.2)) :=
    importNodes_exportDoc G agents hlbl htype hlayer
  -- ids of the imported graph are the enumeration indices
  have hids2 : ((importDoc (exportDoc G agents)).nodes.map (fun p => p.1)).Nodup := by
    rw [hnodes2, hshape, List.map_map]
    have hcompfst : ((fun p : Nat × NodeData => p.1) ∘
        (fun jp : Nat × (Nat × NodeData) => (jp.1, importedNode G agents jp.2.2)))
        = Prod.fst := by
      funext jp; rfl
    rw [hcompfst, List.enum_map_fst]
    exact List.nodup_range G.nodes.length
  refine ⟨?_, ?_, ?_⟩
  · -- every node survives the round trip
    intro p hp
    obtain ⟨j, hj, hget⟩ := List.mem_iff_getElem.mp hp
    refine ⟨(j, importedNode G agents p.2), ?_, rfl, rfl, rfl, ?_⟩
    · rw [hnodes2, hshape]
      have hjm : j < (G.nodes.enum.map
          (fun jp => (jp.1, importedNode G agents jp.2.2))).length := by
        simpa using hj
      have hval := List.getElem_mem hjm
      have heq : (G.nodes.enum.map
          (fun jp => (jp.1, importedNode G agents jp.2.2)))[j]
          = (j, importedNode G agents p.2) := by
        rw [List.getElem_map, List.getElem_enum, hget]
      rwa [heq] at hval
    · exact agent_roundtrip G agents p hp hlbl (hagent p hp).1 (hagent p hp).2
  · -- no extra node appears
    intro q hq
    rw [hnodes2, hshape] at hq
    obtain ⟨jp, hjp, rfl⟩ := List.mem_map.mp hq
    have hp : jp.2 ∈ G.nodes := by
      have h3 : jp.2 ∈ G.nodes.enum.map Prod.snd := List.mem_map_of_mem Prod.snd hjp
      rwa [List.enum_map_snd] at h3
    exact ⟨jp.2, hp, rfl, rfl, rfl,
      agent_roundtrip G agents jp.2 hp hlbl (hagent jp.2 hp).1 (hagent jp.2 hp).2⟩
  · -- edge label triples are preserved in order
    have hnodesD : (exportDoc G agents).nodesD
        = G.nodes.map (fun p =>
            (p.2.label, (⟨encodeTypeCode p.2, p.2.label⟩ : JsonNodeEntry))) :=
      exportNodesDict_eq G hlbl
    have hkeys : (exportDoc G agents).nodesD.map (fun p => p.1)
        = G.nodes.map (fun p => p.2.label) := by
      rw [hnodesD, List.map_map]
      rfl
    have hl2ikeys : ((exportDoc G agents).nodesD.enum.map
        (fun ip => (ip.2.1, ip.1))).map (fun p => p.1)
        = G.nodes.map (fun p => p.2.label) := by
      rw [List.map_map, ← hkeys]
      have h4 : ((fun p : String × Nat => p.1) ∘
          (fun ip : Nat × (String × JsonNodeEntry) => (ip.2.1, ip.1)))
          = (fun p : String × JsonNodeEntry => p.1) ∘ Prod.snd := by
        funext ip; rfl
      rw [h4, ← List.map_map, List.enum_map_snd]
    have hl2i : buildLabelToId (exportDoc G agents).nodesD
        = (exportDoc G agents).nodesD.enum.map (fun ip => (ip.2.1, ip.1)) :=
      buildLabelToId_eq _ (by rw [hkeys]; exact hlbl)
    -- looking up the label of the node at position j gives j
    have hlook : ∀ j, (hjlt : j < G.nodes.length) →
        dictFind (buildLabelToId (exportDoc G agents).nodesD)
          ((G.nodes[j]).2.label) = some j := by
      intro j hjlt
      rw [hl2i]
      have hjm : j < (exportDoc G agents).nodesD.enum.length := by
        have hlen : (exportDoc G agents).nodesD.length = G.nodes.length := by
          rw [hnodesD]; simp
        simpa [hlen] using hjlt
      have hmemj : ((G.nodes[j]).2.label, j)
          ∈ (exportDoc G agents).nodesD.enum.map (fun ip => (ip.2.1, ip.1)) := by
        have hjm2 : j < ((exportDoc G agents).nodesD.enum.map
            (fun ip => (ip.2.1, ip.1))).length := by simpa using hjm
        have hval := List.getElem_mem hjm2
        have heq2 : ((exportDoc G agents).nodesD.enum.map
            (fun ip => (ip.2.1, ip.1)))[j]
            = ((G.nodes[j]).2.label, j) := by
          rw [List.getElem_map, List.getElem_enum]
          have hget3 : ∀ (hjm3 : j < (exportDoc G agents).nodesD.length),
              (exportDoc G agents).nodesD[j]
                = ((G.nodes[j]).2.label,
                   (⟨encodeTypeCode (G.nodes[j]).2,
                     (G.nodes[j]).2.label⟩ : JsonNodeEntry)) := by
            intro hjm3
            have hjm4 : j < (G.nodes.map (fun p =>
                (p.2.label, (⟨encodeTypeCode p.2, p.2.label⟩ : JsonNodeEntry)))).length := by
              simpa using hjlt
            rw [List.getElem_of_eq hnodesD hjm3, List.getElem_map]
          rw [hget3]
        rwa [heq2] at hval
      unfold dictFind
      rw [find?_key_eq_of_nodup _ _ _ (by rw [hl2ikeys]; exact hlbl) hmemj]
      rfl
    -- the label attribute of a present id
    have hlabelOf : ∀ j, (hjlt : j < G.nodes.length) →
        labelAttr G ((G.nodes[j]).1) = (G.nodes[j]).2.label := by
      intro j hjlt
      unfold labelAttr
      rw [getNode_eq_of_nodup G ((G.nodes[j]).1) ((G.nodes[j]).2) hid
        (by rw [Prod.mk.eta]; exact List.getElem_mem hjlt)]
      rfl
    -- resolving an endpoint
    have hresolve : ∀ u : Nat, (∃ pn ∈ G.nodes, pn.1 = u) →
        ∃ j, ∃ hjlt : j < G.nodes.length, (G.nodes[j]).1 = u ∧
          dictFind (buildLabelToId (exportDoc G agents).nodesD)
            (labelAttr G u) = some j := by
      rintro u ⟨pn, hpn, hpe⟩
      obtain ⟨j, hjlt, hgetj⟩ := List.mem_iff_getElem.mp hpn
      refine ⟨j, hjlt, by rw [hgetj, hpe], ?_⟩
      have h5 : labelAttr G u = (G.nodes[j]).2.label := by
        rw [← hpe, ← hgetj]
        exact hlabelOf j hjlt
      rw [h5]
      exact hlook j hjlt
    -- the resolved index function
    have hjf : ∀ u : Nat, (∃ pn ∈ G.nodes, pn.1 = u) →
        ∃ hjlt : ((dictFind (buildLabelToId (exportDoc G agents).nodesD)
            (labelAttr G u)).getD 0) < G.nodes.length,
          (G.nodes[(dictFind (buildLabelToId (exportDoc G agents).nodesD)
            (labelAttr G u)).getD 0]).1 = u := by
      intro u hu
      obtain ⟨j, hjlt, hju, hdict⟩ := hresolve u hu
      rw [hdict]
      exact ⟨hjlt, hju⟩
    -- apply the edge-loading characterization
    have hentries : (exportDoc G agents).edgesD
        = G.edges.map (fun e =>
            (⟨labelAttr G e.1, labelAttr G e.2.1, e.2.2⟩ : JsonEdgeEntry)) := rfl
    have hedges2 : (importDoc (exportDoc G agents)).edges
        = (exportDoc G agents).edgesD.map (fun en =>
            ((dictFind (buildLabelToId (exportDoc G agents).nodesD) en.source).getD 0,
             (dictFind (buildLabelToId (exportDoc G agents).nodesD) en.target).getD 0,
             en.edgeType)) := by
      unfold importDoc
      rw [importEdges_edges_eq]
      · simp
      · -- every entry resolves
        intro en hen
        rw [hentries] at hen
        obtain ⟨e, he, rfl⟩ := List.mem_map.mp hen
        obtain ⟨js, hjlts, _, hs⟩ := hresolve e.1 (hend e he).1
        obtain ⟨jt, hjltt, _, ht⟩ := hresolve e.2.1 (hend e he).2
        exact ⟨js, jt, hs, ht⟩
      · -- the resolved pairs are pairwise distinct
        rw [hentries, List.map_map]
        have hfun : ((fun en : JsonEdgeEntry =>
            ((dictFind (buildLabelToId (exportDoc G agents).nodesD) en.source).getD 0,
             (dictFind (buildLabelToId (exportDoc G agents).nodesD) en.target).getD 0)) ∘
            (fun e : Nat × Nat × String =>
              (⟨labelAttr G e.1, labelAttr G e.2.1, e.2.2⟩ : JsonEdgeEntry)))
            = (fun pr : Nat × Nat =>
                ((dictFind (buildLabelToId (exportDoc G agents).nodesD)
                    (labelAttr G pr.1)).getD 0,
                 (dictFind (buildLabelToId (exportDoc G agents).nodesD)
                    (labelAttr G pr.2)).getD 0)) ∘
              (fun e : Nat × Nat × String => (e.1, e.2.1)) := by
          funext e; rfl
        rw [hfun, ← List.map_map]
        apply List.Nodup.map_on ?inj hpairs
        intro x hx y hy hxy
        obtain ⟨ex, hex, hexeq⟩ := List.mem_map.mp hx
        obtain ⟨ey, hey, heyeq⟩ := List.mem_map.mp hy
        have hx1 : ∃ pn ∈ G.nodes, pn.1 = x.1 := by
          rw [← hexeq]; exact (hend ex hex).1
        have hx2 : ∃ pn ∈ G.nodes, pn.1 = x.2 := by
          rw [← hexeq]; exact (hend ex hex).2
        have hy1 : ∃ pn ∈ G.nodes, pn.1 = y.1 := by
          rw [← heyeq]; exact (hend ey hey).1
        have hy2 : ∃ pn ∈ G.nodes, pn.1 = y.2 := by
          rw [← heyeq]; exact (hend ey hey).2
        obtain ⟨jx1, hltx1, hjx1, hdx1⟩ := hresolve x.1 hx1
        obtain ⟨jx2, hltx2, hjx2, hdx2⟩ := hresolve x.2 hx2
        obtain ⟨jy1, hlty1, hjy1, hdy1⟩ := hresolve y.1 hy1
        obtain ⟨jy2, hlty2, hjy2, hdy2⟩ := hresolve y.2 hy2
        have hcomp1 := congrArg Prod.fst hxy
        have hcomp2 := congrArg Prod.snd hxy
        simp only [hdx1, hdx2, hdy1, hdy2, Option.getD_some] at hcomp1 hcomp2
        subst hcomp1
        subst hcomp2
        apply Prod.ext
        · rw [← hjx1, ← hjy1]
        · rw [← hjx2, ← hjy2]
      · -- nothing is present initially
        intro en _
        simp
    rw [hedges2, hentries, List.map_map, List.map_map]
    apply List.map_congr_left
    intro e he
    obtain ⟨js, hjlts, hjus, hs⟩ := hresolve e.1 (hend e he).1
    obtain ⟨jt, hjltt, hjut, ht⟩ := hresolve e.2.1 (hend e he).2
    simp only [Function.comp_apply, hs, ht, Option.getD_some]
    -- labels of the re-indexed endpoints in the imported graph
    have hlabel2 : ∀ j, (hjlt : j < G.nodes.length) →
        labelAttr (importDoc (exportDoc G agents)) j = (G.nodes[j]).2.label := by
      intro j hjlt
      unfold labelAttr
      have hmemj : (j, importedNode G agents ((G.nodes[j]).2))
          ∈ (importDoc (exportDoc G agents)).nodes := by
        rw [hnodes2, hshape]
        have hjm : j < (G.nodes.enum.map
            (fun jp => (jp.1, importedNode G agents jp.2.2))).length := by
          simpa using hjlt
        have hval := List.getElem_mem hjm
        have heq3 : (G.nodes.enum.map
            (fun jp => (jp.1, importedNode G agents jp.2.2)))[j]
            = (j, importedNode G agents ((G.nodes[j]).2)) := by
          rw [List.getElem_map, List.getElem_enum]
        rwa [heq3] at hval
      rw [getNode_eq_of_nodup _ j _ hids2 hmemj]
      rfl
    rw [hlabel2 js hjlts, hlabel2 jt hjltt]
    have hls : labelAttr G e.1 = (G.nodes[js]).2.label := by
      rw [← hjus]
      exact hlabelOf js hjlts
    have hlt : labelAttr G e.2.1 = (G.nodes[jt]).2.label := by
      rw [← hjut]
      exact hlabelOf jt hjltt
    rw [← hls, ← hlt]

/-- Concrete instance of `c1_amended`: the edge label triples of a
two-node, one-edge graph survive the round trip. -/
theorem c1_amended_witness :
    (importDoc (exportDoc
      { nodes := [(0, { label := "F1", type := "Function",
                        layer := "Distributed Work", agent := ["A"] }),
                  (1, { label := "R1", type := "Resource",
                        layer := "Base Environment", agent := ["Unassigned"] })]
        edges := [(0, 1, "hard")] } ["Unassigned", "A"])).edges.map
        (fun e => (labelAttr (importDoc (exportDoc
          { nodes := [(0, { label := "F1", type := "Function",
                            layer := "Distributed Work", agent := ["A"] }),
                      (1, { label := "R1", type := "Resource",
                            layer := "Base Environment", agent := ["Unassigned"] })]
            edges := [(0, 1, "hard")] } ["Unassigned", "A"])) e.1,
                   labelAttr (importDoc (exportDoc
          { nodes := [(0, { label := "F1", type := "Function",
                            layer := "Distributed Work", agent := ["A"] }),
                      (1, { label := "R1", type := "Resource",
                            layer := "Base Environment", agent := ["Unassigned"] })]
            edges := [(0, 1, "hard")] } ["Unassigned", "A"])) e.2.1, e.2.2))
      = ({ nodes := [(0, { label := "F1", type := "Function",
                           layer := "Distributed Work", agent := ["A"] }),
                     (1, { label := "R1", type := "Resource",
                           layer := "Base Environment", agent := ["Unassigned"] })]
           edges := [(0, 1, "hard")] } : Graph).edges.map
        (fun e => (labelAttr
          { nodes := [(0, { label := "F1", type := "Function",
                            layer := "Distributed Work", agent := ["A"] }),
                      (1, { label := "R1", type := "Resource",
                            layer := "Base Environment", agent := ["Unassigned"] })]
            edges := [(0, 1, "hard")] } e.1,
                   labelAttr
          { nodes := [(0, { label := "F1", type := "Function",
                            layer := "Distributed Work", agent := ["A"] }),
                      (1, { label := "R1", type := "Resource",
                            layer := "Base Environment", agent := ["Unassigned"] })]
            edges := [(0, 1, "hard")] } e.2.1, e.2.2)) :=
  (c1_amended
    { nodes := [(0, { label := "F1", type := "Function",
                      layer := "Distributed Work", agent := ["A"] }),
                (1, { label := "R1", type := "Resource",
                      layer := "Base Environment", agent := ["Unassigned"] })]
      edges := [(0, 1, "hard")] } ["Unassigned", "A"] (by decide)).2.2

end JSAT
